import Mathlib

/-!
# total_recall: a verification development over `main.go`

The program copies a per-user activity database and its image directory into a
fresh extraction folder, appends `.jpg` to the image names, queries the copied
database and writes a timeline report.

The embedding is shallow.  Every function of `main.go` is a Lean function over
an explicit world state `σ`; the operating system, the clock, the console and
the SQL driver are the fields of a record `OS σ`, so that the same program text
can be run against an in-memory file system (`memOS`) and against systems whose
operations fail.  A Go `error` is an `Option String` (`none` is `nil`), a Go
`(T, error)` is an `Except String T`.  Paths are clean paths, kept as their
list of components; `filepath.Join` appends components.
-/

namespace TotalRecall

deriving instance DecidableEq for Except

/-! ## Strings and paths -/

/-- A clean path as the list of its components; the empty list is the
directory every other path starts from. -/
abbrev Path := List String

/-- Go `strings.HasSuffix`. -/
def hasSuffix (s suffix : String) : Bool :=
  suffix.data.isSuffixOf s.data

/-- Go `strings.ToLower`, on the ASCII letters. -/
def toLower (s : String) : String :=
  String.mk (s.data.map Char.toLower)

/-- Go `filepath.Join dir name` for a single component `name`. -/
def joinPath (dir : Path) (name : String) : Path :=
  dir ++ [name]

/-- Go `strings.TrimPrefix path src`, on component lists. -/
def trimPrefix (path src : Path) : Path :=
  if src.isPrefixOf path then path.drop src.length else path

/-- Go `oldPath + ".jpg"`: the suffix lands on the last component. -/
def appendToPath (p : Path) (suffix : String) : Path :=
  match p.getLast? with
  | some name => p.dropLast ++ [name ++ suffix]
  | none => [suffix]

/-! ## Time formatting (Go `time.Unix(sec, 0).Format(layout)`) -/

/-- Decimal digit `d` as a character. -/
def digitChar (d : Nat) : Char :=
  Char.ofNat (48 + d % 10)

/-- Go `time.appendInt`: `x` in decimal, zero-padded to `width`, with a leading
minus sign for a negative `x`. -/
def appendInt (x : Int) (width : Nat) : String :=
  let u := x.natAbs
  let sign := if x < 0 then "-" else ""
  if width = 2 ∧ u < 100 then
    sign ++ String.mk [digitChar (u / 10), digitChar u]
  else if width = 4 ∧ u < 10000 then
    sign ++ String.mk [digitChar (u / 1000), digitChar (u / 100), digitChar (u / 10), digitChar u]
  else
    let digits := Nat.toDigits 10 u
    sign ++ String.mk (List.replicate (width - digits.length) '0' ++ digits)

/-- Go `time.isLeap`. -/
def isLeap (year : Int) : Bool :=
  year % 4 = 0 ∧ (year % 100 ≠ 0 ∨ year % 400 = 0)

/-- Go `time.daysBefore`: days of a non-leap year before month `m + 1`. -/
def daysBefore (m : Int) : Int :=
  if m ≤ 0 then 0 else if m = 1 then 31 else if m = 2 then 59 else if m = 3 then 90
  else if m = 4 then 120 else if m = 5 then 151 else if m = 6 then 181
  else if m = 7 then 212 else if m = 8 then 243 else if m = 9 then 273
  else if m = 10 then 304 else if m = 11 then 334 else 365

/-- Year and zero-based day of the year of a day count since 0001-01-01, by
cutting off 400-, 100-, 4- and 1-year cycles as Go `absDate` does. -/
def yearDay (days : Int) : Int × Int :=
  let n400 := days / 146097
  let d := days % 146097
  let n100 := d / 36524
  let n100 := n100 - n100 / 4
  let d := d - 36524 * n100
  let n4 := d / 1461
  let d := d - 1461 * n4
  let n1 := d / 365
  let n1 := n1 - n1 / 4
  let d := d - 365 * n1
  (400 * n400 + 100 * n100 + 4 * n4 + n1 + 1, d)

/-- Month (1..12) and day of the month of a zero-based day of a non-leap
year: the estimate `day / 31` is at most one month short. -/
def monthOfDay (day : Int) : Int × Int :=
  let month := day / 31
  let fin := daysBefore (month + 1)
  if day ≥ fin then (month + 2, day - fin + 1)
  else (month + 1, day - daysBefore month + 1)

/-- Month (1..12) and day of the month (1..31) of a zero-based day of the
year, as the second half of Go `absDate`: in a leap year day 59 is February 29
and the later days are shifted back by one. -/
def monthDay (year yday : Int) : Int × Int :=
  if isLeap year ∧ yday = 59 then (2, 29)
  else monthOfDay (if isLeap year ∧ yday > 59 then yday - 1 else yday)

/-- The broken-down time of Go: the fields `Format` prints. -/
structure Civil where
  year : Int
  month : Int
  day : Int
  hour : Int
  minute : Int
  second : Int
deriving DecidableEq, Repr

/-- The civil fields of the wall clock `wall` (seconds since 1970-01-01
00:00:00 read in the zone of the clock). -/
def civilOfWall (wall : Int) : Civil :=
  let days := wall / 86400
  let rem := wall % 86400
  let yd := yearDay (days + 719162)
  let md := monthDay yd.1 yd.2
  { year := yd.1, month := md.1, day := md.2,
    hour := rem / 3600, minute := rem % 3600 / 60, second := rem % 60 }

/-- Go `time.Unix(sec, 0)` read in the local zone: `offset` is the zone's
lookup, giving the seconds east of UTC in force at an instant. -/
def localCivil (offset : Int → Int) (sec : Int) : Civil :=
  civilOfWall (sec + offset sec)

/-- Layout `2006-01-02 15:04:05`. -/
def layoutDateTime (c : Civil) : String :=
  appendInt c.year 4 ++ "-" ++ appendInt c.month 2 ++ "-" ++ appendInt c.day 2 ++ " " ++
    appendInt c.hour 2 ++ ":" ++ appendInt c.minute 2 ++ ":" ++ appendInt c.second 2

/-- Layout `2006-01-02-15-04`. -/
def layoutFolder (c : Civil) : String :=
  appendInt c.year 4 ++ "-" ++ appendInt c.month 2 ++ "-" ++ appendInt c.day 2 ++ "-" ++
    appendInt c.hour 2 ++ "-" ++ appendInt c.minute 2

/-! ## The world the program runs in -/

/-- Go `os.FileInfo` and `os.DirEntry`: what the program reads of an entry. -/
structure FileInfo where
  name : String
  isDir : Bool
  mode : Nat
deriving DecidableEq, Repr

/-- One row of table `WindowCapture`, restricted to the three selected
columns: `WindowTitle` (nullable text), `TimeStamp` (integer), `ImageToken`
(nullable text). -/
structure Row where
  windowTitle : Option String
  timeStamp : Int
  imageToken : Option String
deriving DecidableEq, Repr

/-- The calls `main.go` makes outside itself, over a world state `σ`.  A call
that can change the world returns the new world next to its error. -/
structure OS (σ : Type) where
  /-- `os.Stat`. -/
  stat : Path → σ → Except String FileInfo
  /-- `os.IsNotExist` on an error. -/
  isNotExist : String → Bool
  /-- `os.Lstat`, used by `filepath.Walk`. -/
  lstat : Path → σ → Except String FileInfo
  /-- `os.ReadDir`: the entries of a directory, sorted by name. -/
  readDir : Path → σ → Except String (List FileInfo)
  /-- `os.Open` for reading. -/
  openFile : Path → σ → Option String
  /-- `os.Create`: create or truncate. -/
  create : Path → σ → Option String × σ
  /-- `io.Copy dst src` on two open files. -/
  copy : Path → Path → σ → Option String × σ
  /-- `(*os.File).WriteString`. -/
  writeString : Path → String → σ → Option String × σ
  /-- `os.MkdirAll`. -/
  mkdirAll : Path → Nat → σ → Option String × σ
  /-- `os.Rename`. -/
  rename : Path → Path → σ → Option String × σ
  /-- `exec.Command("icacls", ...).Run()`. -/
  icacls : Path → String → σ → Option String × σ
  /-- `sql.Open("sqlite3", path)`. -/
  sqlOpen : Path → σ → Option String
  /-- The rows of `WindowCapture` in the order the engine yields them, or the
  error of `db.Query`. -/
  tableRows : Path → σ → Except String (List Row)
  /-- `time.Now()` as Unix seconds. -/
  now : σ → Int
  /-- The local zone: seconds east of UTC in force at a Unix time. -/
  zoneOffset : Int → Int
  /-- `fmt.Scanln(&s)`. -/
  scanln : σ → String × σ
  /-- `fmt.Println` and `fmt.Printf`. -/
  print : String → σ → σ

/-- The Go struct `Info`. -/
structure Info where
  path : Path
  username : String
  dbPath : Path
  imageStorePath : Path
  extractionFolder : Path
deriving DecidableEq, Repr

/-! ## The program -/

section Program

variable {σ : Type}

/-- Go `buildPath`. -/
def buildPath (os : OS σ) (s : σ) : Info × σ :=
  let s := os.print "Input username:\n" s
  let (username, s) := os.scanln s
  ({ path := ["C:", "Users", username, "AppData", "Local", "CoreAIPlatform.00", "UKP"],
     username := username, dbPath := [], imageStorePath := [], extractionFolder := [] }, s)

/-- Go `checkPath`: `!os.IsNotExist(err)` for the error of `os.Stat`. -/
def checkPath (os : OS σ) (path : Path) (s : σ) : Bool :=
  match os.stat path s with
  | .ok _ => true
  | .error err => !os.isNotExist err

/-- Go `modifyPermissions`. -/
def modifyPermissions (os : OS σ) (I : Info) (s : σ) : Option String × σ :=
  os.icacls I.path (I.username ++ ":(OI)(CI)F") s

/-- The loop of Go `getGUIDFolder`: the name of the first directory. -/
def firstDir : List FileInfo → Except String String
  | [] => .error "no folder found"
  | file :: files => if file.isDir then .ok file.name else firstDir files

/-- Go `getGUIDFolder`. -/
def getGUIDFolder (os : OS σ) (I : Info) (s : σ) : Except String String :=
  match os.readDir I.path s with
  | .error err => .error err
  | .ok files => firstDir files

/-- Go `copyFile`. -/
def copyFile (os : OS σ) (src dst : Path) (s : σ) : Option String × σ :=
  match os.openFile src s with
  | some err => (some err, s)
  | none =>
    match os.create dst s with
    | (some err, s) => (some err, s)
    | (none, s) => os.copy dst src s

/-- The function literal Go `copyDir` hands to `filepath.Walk`. -/
def copyDirFn (os : OS σ) (src dst : Path) (path : Path) (info : FileInfo)
    (err : Option String) (s : σ) : Option String × σ :=
  match err with
  | some e => (some e, s)
  | none =>
    let relativePath := trimPrefix path src
    let dstPath := dst ++ relativePath
    if info.isDir then os.mkdirAll dstPath info.mode s
    else copyFile os path dstPath s

/-- A placeholder `FileInfo` for the `nil` Go passes next to an error. -/
def noInfo : FileInfo := { name := "", isDir := false, mode := 0 }

/-- The loop over the names of a directory in Go `filepath.walk`; `descend` is
the recursive call of `walk` on an entry. -/
def walkNames (os : OS σ) (fn : Path → FileInfo → Option String → σ → Option String × σ)
    (descend : Path → FileInfo → σ → Option (Option String × σ)) :
    Path → List String → σ → Option (Option String × σ)
  | _, [], s => some (none, s)
  | path, name :: names, s =>
    let filename := joinPath path name
    match os.lstat filename s with
    | .error err =>
      match fn filename noInfo (some err) s with
      | (some e, s) => some (some e, s)
      | (none, s) => walkNames os fn descend path names s
    | .ok fileInfo =>
      match descend filename fileInfo s with
      | none => none
      | some (some e, s) => some (some e, s)
      | some (none, s) => walkNames os fn descend path names s

/-- Go `filepath.walk`.  The recursion follows the live file system, so it is
bounded by `fuel`, the number of nested calls it may make; `none` means the
bound was hit.  The walk function of `copyDir` never returns `SkipDir`, so that
case is left out. -/
def walk (os : OS σ) (fn : Path → FileInfo → Option String → σ → Option String × σ) :
    Nat → Path → FileInfo → σ → Option (Option String × σ)
  | 0, _, _, _ => none
  | fuel + 1, path, info, s =>
    if !info.isDir then some (fn path info none s)
    else
      match os.readDir path s with
      | .error err => some (fn path info (some err) s)
      | .ok names =>
        match fn path info none s with
        | (some err1, s) => some (some err1, s)
        | (none, s) => walkNames os fn (walk os fn fuel) path (names.map FileInfo.name) s

/-- Go `filepath.Walk`. -/
def filepathWalk (os : OS σ) (fn : Path → FileInfo → Option String → σ → Option String × σ)
    (fuel : Nat) (root : Path) (s : σ) : Option (Option String × σ) :=
  match os.lstat root s with
  | .error err => some (fn root noInfo (some err) s)
  | .ok info => walk os fn fuel root info s

/-- Go `copyDir`. -/
def copyDir (os : OS σ) (fuel : Nat) (src dst : Path) (s : σ) : Option (Option String × σ) :=
  filepathWalk os (copyDirFn os src dst) fuel src s

/-- Go `initialize` (a word Lean keeps for itself, hence the longer name): the
`Info` and the error it returns. -/
def initializeInfo (os : OS σ) (s : σ) : (Info × Option String) × σ :=
  let (I, s) := buildPath os s
  if !checkPath os I.path s then ((I, some "base path does not exist"), s)
  else
    match modifyPermissions os I s with
    | (some err, s) =>
      ((I, some ("failed to modify permissions for " ++ "\\".intercalate I.path ++ ": " ++ err)), s)
    | (none, s) =>
      let s := os.print ("Permissions modified for " ++ "\\".intercalate I.path ++
        " and all its subdirectories and files\n") s
      match getGUIDFolder os I s with
      | .error _ => ((I, some "could not find the GUID folder"), s)
      | .ok guidFolder =>
        let recallFolder := joinPath I.path guidFolder
        let s := os.print ("Recall folder found: " ++ "\\".intercalate recallFolder ++ "\n") s
        let I := { I with dbPath := joinPath recallFolder "ukg.db",
                          imageStorePath := joinPath recallFolder "ImageStore" }
        if !checkPath os I.dbPath s || !checkPath os I.imageStorePath s then
          ((I, some "windows Recall feature not found. Nothing to extract"), s)
        else
          let s := os.print
            "Windows Recall feature found. Do you want to proceed with the extraction? (yes/no): \n" s
          let (proceed, s) := os.scanln s
          if toLower proceed ≠ "yes" then ((I, some "extraction aborted"), s)
          else ((I, none), s)

/-- The folder name Go `setupExtractionFolder` builds from the start time
`now` (Unix seconds) in the zone `offset`. -/
def extractionFolderName (offset : Int → Int) (now : Int) : String :=
  layoutFolder (localCivil offset now) ++ "_Recall_Extraction"

/-- Go `setupExtractionFolder`. -/
def setupExtractionFolder (os : OS σ) (s : σ) : Except String Path × σ :=
  let timestamp := layoutFolder (localCivil os.zoneOffset (os.now s))
  let extractionFolder : Path := [timestamp ++ "_Recall_Extraction"]
  match os.mkdirAll extractionFolder 511 s with
  | (some err, s) => (.error ("failed to create extraction folder: " ++ err), s)
  | (none, s) =>
    let s := os.print ("Creating extraction folder: " ++ "\\".intercalate extractionFolder ++ "\n") s
    (.ok extractionFolder, s)

/-- Go `copyDatabaseAndImages`. -/
def copyDatabaseAndImages (os : OS σ) (fuel : Nat) (I : Info) (s : σ) :
    Option (Option String × σ) :=
  match copyFile os I.dbPath (joinPath I.extractionFolder "ukg.db") s with
  | (some err, s) => some (some ("failed to copy database file: " ++ err), s)
  | (none, s) =>
    match copyDir os fuel I.imageStorePath (joinPath I.extractionFolder "ImageStore") s with
    | none => none
    | some (some err, s) => some (some ("failed to copy image store: " ++ err), s)
    | some (none, s) => some (none, s)

/-- The body of the loop of Go `renameImages` for one listed entry; the result
of `os.Rename` is dropped, as in the source. -/
def renameOne (os : OS σ) (imageStoreExtractionPath : Path) (s : σ) (file : FileInfo) : σ :=
  if !hasSuffix file.name ".jpg" then
    let oldPath := joinPath imageStoreExtractionPath file.name
    let newPath := appendToPath oldPath ".jpg"
    (os.rename oldPath newPath s).2
  else s

/-- Go `renameImages`. -/
def renameImages (os : OS σ) (imageStoreExtractionPath : Path) (s : σ) : Option String × σ :=
  match os.readDir imageStoreExtractionPath s with
  | .error err => (some ("failed to read image store extraction path: " ++ err), s)
  | .ok files => (none, files.foldl (renameOne os imageStoreExtractionPath) s)

/-- Go `database/sql` storing a column into a `*string`: SQL `NULL` is
refused. -/
def scanString (index : Nat) (column : String) : Option String → Except String String
  | some text => .ok text
  | none => .error ("sql: Scan error on column index " ++ Nat.repr index ++ ", name \"" ++ column ++
      "\": converting NULL to string is unsupported")

/-- Go `rows.Scan(&windowTitle, &timestamp, &imageToken)` into a `string`, an
`int64` and a `string`. -/
def scanRow (r : Row) : Except String (String × Int × String) :=
  match scanString 0 "WindowTitle" r.windowTitle with
  | .error err => .error err
  | .ok windowTitle =>
    match scanString 2 "ImageToken" r.imageToken with
    | .error err => .error err
    | .ok imageToken => .ok (windowTitle, r.timeStamp, imageToken)

/-- The `WHERE` clause of the query:
`WindowTitle IS NOT NULL OR ImageToken IS NOT NULL`. -/
def selected (r : Row) : Bool :=
  r.windowTitle.isSome || r.imageToken.isSome

/-- Go `time.Unix(timestamp/1000, 0).Format("2006-01-02 15:04:05")`; the Go
quotient truncates toward zero. -/
def readableTimestamp (offset : Int → Int) (timestamp : Int) : String :=
  layoutDateTime (localCivil offset (timestamp.tdiv 1000))

/-- Go `fmt.Sprintf("[%s] %s", readableTimestamp, payload)`. -/
def eventLine (readable payload : String) : String :=
  "[" ++ readable ++ "] " ++ payload

/-- The `for rows.Next()` loop of Go `queryDatabase`, on the rows still to
come and the two slices built so far. -/
def scanRows (offset : Int → Int) :
    List Row → List String → List String → Except String (List String × List String)
  | [], capturedWindows, imagesTaken => .ok (capturedWindows, imagesTaken)
  | row :: rows, capturedWindows, imagesTaken =>
    match scanRow row with
    | .error err => .error ("failed to scan row: " ++ err)
    | .ok (windowTitle, timestamp, imageToken) =>
      let readable := readableTimestamp offset timestamp
      let capturedWindows :=
        if windowTitle ≠ "" then capturedWindows ++ [eventLine readable windowTitle]
        else capturedWindows
      let imagesTaken :=
        if imageToken ≠ "" then imagesTaken ++ [eventLine readable imageToken]
        else imagesTaken
      scanRows offset rows capturedWindows imagesTaken

/-- Go `queryDatabase` from the point where `db.Query` has returned the result
set of the `SELECT` over `table`. -/
def extractEvents (offset : Int → Int) (table : List Row) :
    Except String (List String × List String) :=
  scanRows offset (table.filter selected) [] []

/-- Go `queryDatabase`. -/
def queryDatabase (os : OS σ) (dbPath : Path) (s : σ) :
    Except String (List String × List String) :=
  match os.sqlOpen dbPath s with
  | some err => .error ("failed to open database: " ++ err)
  | none =>
    match os.tableRows dbPath s with
    | .error err => .error ("failed to query database: " ++ err)
    | .ok table => extractEvents os.zoneOffset table

/-- One `file.WriteString(text)` of Go `writeOutput`; its result is dropped,
as in the source. -/
def writeLine (os : OS σ) (file : Path) (s : σ) (text : String) : σ :=
  (os.writeString file text s).2

/-- Go `writeOutput`. -/
def writeOutput (os : OS σ) (extractionFolder : Path) (capturedWindows imagesTaken : List String)
    (s : σ) : Option String × σ :=
  let totalRecallFilePath := joinPath extractionFolder "TotalRecall.txt"
  match os.create totalRecallFilePath s with
  | (some err, s) => (some ("failed to create output file: " ++ err), s)
  | (none, s) =>
    let s := writeLine os totalRecallFilePath s "Captured Windows:\n"
    let s := capturedWindows.foldl (fun s entry => writeLine os totalRecallFilePath s (entry ++ "\n")) s
    let s := writeLine os totalRecallFilePath s "\nImages Taken:\n"
    let s := imagesTaken.foldl (fun s entry => writeLine os totalRecallFilePath s (entry ++ "\n")) s
    (none, s)

/-- Go `main`; `none` only when the walk of `copyDir` hits its bound. -/
def main (os : OS σ) (fuel : Nat) (s : σ) : Option σ :=
  match initializeInfo os s with
  | ((_, some err), s) => some (os.print (err ++ "\n") s)
  | ((I, none), s) =>
    match setupExtractionFolder os s with
    | (.error err, s) => some (os.print (err ++ "\n") s)
    | (.ok extractionFolder, s) =>
      let I := { I with extractionFolder := extractionFolder }
      match copyDatabaseAndImages os fuel I s with
      | none => none
      | some (some err, s) => some (os.print (err ++ "\n") s)
      | some (none, s) =>
        match renameImages os (joinPath I.extractionFolder "ImageStore") s with
        | (some err, s) => some (os.print (err ++ "\n") s)
        | (none, s) =>
          match queryDatabase os (joinPath I.extractionFolder "ukg.db") s with
          | .error err => some (os.print (err ++ "\n") s)
          | .ok (capturedWindows, imagesTaken) =>
            match writeOutput os I.extractionFolder capturedWindows imagesTaken s with
            | (some err, s) => some (os.print (err ++ "\n") s)
            | (none, s) =>
              let s := os.print ("\nSummary of the extraction is available in the file: " ++
                "\\".intercalate (joinPath I.extractionFolder "TotalRecall.txt") ++ "\n") s
              some (os.print ("\nFull extraction folder path: " ++
                "\\".intercalate I.extractionFolder ++ "\n") s)

end Program

/-! ## An in-memory world

The file system is a finite table from paths to nodes, read through
`FS.lookup` (the first binding of a path counts).  Permission bits of
directories are kept, contents of files are Go strings.  The rules of
`os.Rename` are those of the program's platform: a file replaces an existing
file, nothing replaces a directory, and a directory is not renamed onto an
existing entry. -/

/-- A file with its contents, or a directory with its permission bits. -/
inductive Node where
  | file (data : String)
  | dir (mode : Nat)
deriving DecidableEq, Repr

/-- The table of a file system. -/
abbrev FS := List (Path × Node)

namespace FS

/-- The node at `p`, if any. -/
def lookup : FS → Path → Option Node
  | [], _ => none
  | (q, n) :: fs, p => if p = q then some n else lookup fs p

/-- Bind `p` to `n`. -/
def set (fs : FS) (p : Path) (n : Node) : FS :=
  (p, n) :: fs

/-- Remove every binding of `p`. -/
def erase (fs : FS) (p : Path) : FS :=
  fs.filter (fun e => e.1 ≠ p)

/-- Move the subtree at `old` to `new`. -/
def moveTree (fs : FS) (old new : Path) : FS :=
  fs.map (fun e => if old.isPrefixOf e.1 then (new ++ e.1.drop old.length, e.2) else e)

/-- Whether `p` is a directory. -/
def isDir (fs : FS) (p : Path) : Bool :=
  match fs.lookup p with
  | some (.dir _) => true
  | _ => false

/-- The `FileInfo` of a node under the name `name`. -/
def infoOf (name : String) : Node → FileInfo
  | .file _ => { name := name, isDir := false, mode := 0 }
  | .dir mode => { name := name, isDir := true, mode := mode }

/-- The name of `q` when `q` is an entry of directory `p`. -/
def childName (p q : Path) : Option String :=
  match q.getLast? with
  | some name => if q.dropLast = p then some name else none
  | none => none

/-- The order of `sort.Strings`. -/
def nameLE (a b : String) : Bool :=
  decide (a.data ≤ b.data)

/-- The names of the entries of `p`, each once, sorted. -/
def childNames (fs : FS) (p : Path) : List String :=
  ((fs.filterMap (fun e => childName p e.1)).dedup).insertionSort (fun a b => nameLE a b = true)

/-- `os.Stat` and `os.Lstat` (the model has no symbolic links). -/
def stat (fs : FS) (p : Path) : Except String FileInfo :=
  match fs.lookup p with
  | some n => .ok (infoOf (p.getLast?.getD "") n)
  | none => .error "no such file or directory"

/-- `os.ReadDir`. -/
def readDir (fs : FS) (p : Path) : Except String (List FileInfo) :=
  match fs.lookup p with
  | some (.dir _) =>
    .ok ((fs.childNames p).filterMap (fun name => (fs.lookup (p ++ [name])).map (infoOf name)))
  | some (.file _) => .error "not a directory"
  | none => .error "no such file or directory"

/-- `os.Open`. -/
def openFile (fs : FS) (p : Path) : Option String :=
  match fs.lookup p with
  | some _ => none
  | none => some "no such file or directory"

/-- `os.Create`. -/
def create (fs : FS) (p : Path) : Option String × FS :=
  if p = [] then (some "is a directory", fs)
  else if fs.isDir p.dropLast then
    match fs.lookup p with
    | some (.dir _) => (some "is a directory", fs)
    | _ => (none, fs.set p (.file ""))
  else (some "no such file or directory", fs)

/-- `io.Copy dst src`: the bytes of `src` are appended to `dst`. -/
def copy (fs : FS) (dst src : Path) : Option String × FS :=
  match fs.lookup src, fs.lookup dst with
  | some (.file d), some (.file d0) => (none, fs.set dst (.file (d0 ++ d)))
  | some (.dir _), _ => (some "is a directory", fs)
  | _, _ => (some "file already closed", fs)

/-- `(*os.File).WriteString` on the file created at `p`. -/
def writeString (fs : FS) (p : Path) (text : String) : Option String × FS :=
  match fs.lookup p with
  | some (.file d) => (none, fs.set p (.file (d ++ text)))
  | _ => (some "file already closed", fs)

/-- `os.MkdirAll` on the reversed path: succeed on a directory, fail on a file,
otherwise make the parent and then the directory. -/
def mkdirAllRev (mode : Nat) : List String → FS → Option String × FS
  | [], fs =>
    match fs.lookup [] with
    | some (.dir _) => (none, fs)
    | some (.file _) => (some "not a directory", fs)
    | none => (none, fs.set [] (.dir mode))
  | name :: parent, fs =>
    match fs.lookup (name :: parent).reverse with
    | some (.dir _) => (none, fs)
    | some (.file _) => (some "not a directory", fs)
    | none =>
      match mkdirAllRev mode parent fs with
      | (some err, fs) => (some err, fs)
      | (none, fs) => (none, fs.set (name :: parent).reverse (.dir mode))

/-- `os.MkdirAll`. -/
def mkdirAll (fs : FS) (p : Path) (mode : Nat) : Option String × FS :=
  mkdirAllRev mode p.reverse fs

/-- `os.Rename`. -/
def rename (fs : FS) (old new : Path) : Option String × FS :=
  match fs.lookup old with
  | none => (some "no such file or directory", fs)
  | some (.file d) =>
    if old = new then (none, fs)
    else if new = [] ∨ !fs.isDir new.dropLast then (some "no such file or directory", fs)
    else
      match fs.lookup new with
      | some (.dir _) => (some "access is denied", fs)
      | _ => (none, (fs.erase old).set new (.file d))
  | some (.dir _) =>
    if old = new then (none, fs)
    else if new = [] ∨ !fs.isDir new.dropLast then (some "no such file or directory", fs)
    else if old.isPrefixOf new then (some "invalid argument", fs)
    else
      match fs.lookup new with
      | some _ => (some "access is denied", fs)
      | none => (none, fs.moveTree old new)

end FS

/-- The in-memory world: file system, console output, pending console input
and the clock. -/
structure World where
  fs : FS
  console : List String
  stdin : List String
  clock : Int

/-- The in-memory operating system.  `decode` reads table `WindowCapture` out
of the bytes of a database file; `offset` is the local zone. -/
def memOS (decode : String → Except String (List Row)) (offset : Int → Int) : OS World where
  stat p w := w.fs.stat p
  isNotExist err := err = "no such file or directory"
  lstat p w := w.fs.stat p
  readDir p w := w.fs.readDir p
  openFile p w := w.fs.openFile p
  create p w := ((w.fs.create p).1, { w with fs := (w.fs.create p).2 })
  copy dst src w := ((w.fs.copy dst src).1, { w with fs := (w.fs.copy dst src).2 })
  writeString p text w := ((w.fs.writeString p text).1, { w with fs := (w.fs.writeString p text).2 })
  mkdirAll p mode w := ((w.fs.mkdirAll p mode).1, { w with fs := (w.fs.mkdirAll p mode).2 })
  rename old new w := ((w.fs.rename old new).1, { w with fs := (w.fs.rename old new).2 })
  icacls _ _ w := (none, w)
  sqlOpen _ _ := none
  tableRows p w :=
    match w.fs.lookup p with
    | some (.file d) => decode d
    | _ => .error "unable to open database file"
  now w := w.clock
  zoneOffset := offset
  scanln w := (w.stdin.headD "", { w with stdin := w.stdin.tail })
  print text w := { w with console := w.console ++ [text] }

/-! ## Statements of the specification, in its own words -/

/-- Each line followed by a line feed. -/
def unlines : List String → String
  | [] => ""
  | line :: lines => line ++ "\n" ++ unlines lines

/-- The report as the specification words it: the header `Captured Windows:`,
each window event on its own line, one blank line, the header `Images Taken:`,
each image event on its own line. -/
def reportText (windowEvents imageEvents : List String) : String :=
  unlines (["Captured Windows:"] ++ windowEvents ++ [""] ++ ["Images Taken:"] ++ imageEvents)

/-- The count the specification gives for the two event lists: as many window
events as selected rows with a non-null title, as many image events as selected
rows with a non-null token. -/
def CountsNonNull (offset : Int → Int) (table : List Row) : Prop :=
  ∃ windowEvents imageEvents, extractEvents offset table = .ok (windowEvents, imageEvents) ∧
    windowEvents.length = (table.filter selected).countP (fun r => r.windowTitle.isSome) ∧
    imageEvents.length = (table.filter selected).countP (fun r => r.imageToken.isSome)

/-- A column holds a non-empty text (neither `NULL` nor the empty string). -/
def hasText : Option String → Bool
  | some text => text ≠ ""
  | none => false

/-- The window event of a row: present when the title is a non-empty text. -/
def windowEvent (offset : Int → Int) (r : Row) : Option String :=
  match r.windowTitle with
  | some title => if title ≠ "" then some (eventLine (readableTimestamp offset r.timeStamp) title) else none
  | none => none

/-- The image event of a row: present when the token is a non-empty text. -/
def imageEvent (offset : Int → Int) (r : Row) : Option String :=
  match r.imageToken with
  | some token => if token ≠ "" then some (eventLine (readableTimestamp offset r.timeStamp) token) else none
  | none => none

/-! ## Sample worlds -/

/-- The zone UTC. -/
def utc : Int → Int := fun _ => 0

/-- The storage root of user `alice`. -/
def sampleBase : Path := ["C:", "Users", "alice", "AppData", "Local", "CoreAIPlatform.00", "UKP"]

/-- A database file is named by its bytes; `sampleDecode` gives the tables of
three sample files. -/
def sampleDecode (bytes : String) : Except String (List Row) :=
  if bytes = "db-notepad-null" then
    .ok [{ windowTitle := some "Notepad", timeStamp := 1700000000000, imageToken := none }]
  else if bytes = "db-notepad" then
    .ok [{ windowTitle := some "Notepad", timeStamp := 1700000000000, imageToken := some "" },
         { windowTitle := none, timeStamp := 7, imageToken := none },
         { windowTitle := some "Editor", timeStamp := 1700000061999, imageToken := some "tok-1" }]
  else if bytes = "db-empty" then .ok []
  else .error "file is not a database"

/-- The directories from the starting directory down to the GUID folder. -/
def sampleDirs : FS :=
  [([], .dir 511), (["C:"], .dir 511), (["C:", "Users"], .dir 511), (["C:", "Users", "alice"], .dir 511),
   (["C:", "Users", "alice", "AppData"], .dir 511),
   (["C:", "Users", "alice", "AppData", "Local"], .dir 511),
   (["C:", "Users", "alice", "AppData", "Local", "CoreAIPlatform.00"], .dir 511),
   (sampleBase, .dir 511), (sampleBase ++ ["readme.txt"], .file "r"),
   (sampleBase ++ ["GUID"], .dir 511)]

/-- A world with the image store of the specification's scenario: `abc`,
`def.jpg`, `ghi.png`. -/
def sampleWorld : World :=
  { fs := sampleDirs ++
      [(sampleBase ++ ["GUID", "ukg.db"], .file "db-notepad"),
       (sampleBase ++ ["GUID", "ImageStore"], .dir 493),
       (sampleBase ++ ["GUID", "ImageStore", "abc"], .file "image one"),
       (sampleBase ++ ["GUID", "ImageStore", "def.jpg"], .file "image two"),
       (sampleBase ++ ["GUID", "ImageStore", "ghi.png"], .file "image three")],
    console := [], stdin := ["alice", "yes"], clock := 1700000000 }

/-- The world of the scenario with one row whose `ImageToken` is `NULL`. -/
def nullTokenWorld : World :=
  { sampleWorld with fs := [(["ukg.db"], .file "db-notepad-null"), ([], .dir 511)] }

/-- The in-memory system with a disk on which `os.Rename` is refused and every
`WriteString` fails. -/
def refusingOS : OS World :=
  { memOS sampleDecode utc with
    rename := fun _ _ w => (some "access is denied", w)
    writeString := fun _ _ w => (some "no space left on device", w) }

/-! ## The top level of a directory -/

/-- What directory `dir` shows under each name. -/
def FS.view (fs : FS) (dir : Path) (name : String) : Option Node :=
  fs.lookup (dir ++ [name])

/-- Whether `os.Rename` of the entry `a` to `a ++ ".jpg"` goes through, read
off the top level `T` of the directory. -/
def renameGoes (T : String → Option Node) (a : String) : Bool :=
  match T a, T (a ++ ".jpg") with
  | some (.file _), some (.dir _) => false
  | some (.file _), _ => true
  | some (.dir _), none => true
  | _, _ => false

/-- The top level after the loop body of `renameImages` has handled the
listed name `a`. -/
def stepView (T : String → Option Node) (a : String) : String → Option Node :=
  if !hasSuffix a ".jpg" && renameGoes T a then
    fun c => if c = a ++ ".jpg" then T a else if c = a then none else T c
  else T

/-! ## The image directory, in the words of the specification -/

/-- What the specification says `renameImages` does to the listing of `dir`:
an entry whose name ends in `.jpg` is left as it is, any other entry is found
under its name with `.jpg` appended and no longer under its old name, and
afterwards every listed name ends in `.jpg`. -/
def Normalizes (os : OS World) (dir : Path) (w : World) : Prop :=
  ∀ files, os.readDir dir w = .ok files →
    (∀ f ∈ files, hasSuffix f.name ".jpg" = true →
      (renameImages os dir w).2.fs.lookup (dir ++ [f.name]) = w.fs.lookup (dir ++ [f.name])) ∧
    (∀ f ∈ files, hasSuffix f.name ".jpg" = false →
      (renameImages os dir w).2.fs.lookup (dir ++ [f.name ++ ".jpg"]) = w.fs.lookup (dir ++ [f.name]) ∧
      (renameImages os dir w).2.fs.lookup (dir ++ [f.name]) = none) ∧
    (∀ files', os.readDir dir (renameImages os dir w).2 = .ok files' →
      ∀ g ∈ files', hasSuffix g.name ".jpg" = true)

/-- The image store of the sample world. -/
def sampleStore : Path := sampleBase ++ ["GUID", "ImageStore"]

/-- An image store holding the files `abc` and `abc.jpg`. -/
def collisionWorld : World :=
  { sampleWorld with
    fs := [([], .dir 511), (["ImageStore"], .dir 493),
           (["ImageStore", "abc"], .file "image one"),
           (["ImageStore", "abc.jpg"], .file "image two")] }

/-- An image store holding the file `abc` and the directory `abc.jpg`. -/
def refusedWorld : World :=
  { sampleWorld with
    fs := [([], .dir 511), (["ImageStore"], .dir 493),
           (["ImageStore", "abc"], .file "image one"),
           (["ImageStore", "abc.jpg"], .dir 493)] }

/-- The system `os` with entries held open by another process: while the count
kept next to the world is positive, `os.Rename` is refused and the count goes
down by one; every other call is the one of `os`. -/
def heldOS {σ : Type} (os : OS σ) : OS (σ × Nat) where
  stat p s := os.stat p s.1
  isNotExist := os.isNotExist
  lstat p s := os.lstat p s.1
  readDir p s := os.readDir p s.1
  openFile p s := os.openFile p s.1
  create p s := ((os.create p s.1).1, ((os.create p s.1).2, s.2))
  copy dst src s := ((os.copy dst src s.1).1, ((os.copy dst src s.1).2, s.2))
  writeString p text s := ((os.writeString p text s.1).1, ((os.writeString p text s.1).2, s.2))
  mkdirAll p mode s := ((os.mkdirAll p mode s.1).1, ((os.mkdirAll p mode s.1).2, s.2))
  rename old new s :=
    match s.2 with
    | 0 => ((os.rename old new s.1).1, ((os.rename old new s.1).2, 0))
    | held + 1 => (some "the process cannot access the file", (s.1, held))
  icacls p grant s := ((os.icacls p grant s.1).1, ((os.icacls p grant s.1).2, s.2))
  sqlOpen p s := os.sqlOpen p s.1
  tableRows p s := os.tableRows p s.1
  now s := os.now s.1
  zoneOffset := os.zoneOffset
  scanln s := ((os.scanln s.1).1, ((os.scanln s.1).2, s.2))
  print text s := (os.print text s.1, s.2)

/-- The names a directory lists, or `none` when it cannot be listed. -/
def listedNames {σ : Type} (os : OS σ) (dir : Path) (s : σ) : Option (List String) :=
  match os.readDir dir s with
  | .ok files => some (files.map FileInfo.name)
  | .error _ => none

/-! ## Reading a formatted time back (Go `time.Parse`, layout `2006-01-02 15:04:05`) -/

/-- Go `time.daysSinceEpoch`, counted from 0001-01-01: the days before January
1 of `year`, adding up 400-, 100-, 4- and 1-year cycles. -/
def daysSinceEpoch (year : Int) : Int :=
  let y := year - 1
  let n400 := y / 400
  let y := y - 400 * n400
  let n100 := y / 100
  let y := y - 100 * n100
  let n4 := y / 4
  let y := y - 4 * n4
  146097 * n400 + 36524 * n100 + 1461 * n4 + 365 * y

/-- Go `time.daysIn`. -/
def daysIn (month year : Int) : Int :=
  if month = 2 ∧ isLeap year then 29 else daysBefore month - daysBefore (month - 1)

/-- Go `time.Date` on fields that are in range, read as a wall clock: seconds
since 1970-01-01 00:00:00 in the zone of the clock. -/
def wallOfCivil (c : Civil) : Int :=
  let d := daysSinceEpoch c.year + daysBefore (c.month - 1) +
    (if isLeap c.year ∧ c.month ≥ 3 then 1 else 0) + (c.day - 1)
  (d - 719162) * 86400 + c.hour * 3600 + c.minute * 60 + c.second

/-- Go `time.isDigit` on one character. -/
def isDigitChar (c : Char) : Bool :=
  48 ≤ c.toNat ∧ c.toNat ≤ 57

/-- The value of a decimal digit. -/
def digitValue (c : Char) : Int :=
  (c.toNat - 48 : Nat)

/-- Go `time.getnum`: a one- or two-digit number at the head of `s`; with
`fixed` it must have two digits. -/
def getnum : List Char → Bool → Option (Int × List Char)
  | [], _ => none
  | [c0], fixed =>
    if isDigitChar c0 ∧ fixed = false then some (digitValue c0, []) else none
  | c0 :: c1 :: rest, fixed =>
    if isDigitChar c0 then
      if isDigitChar c1 then some (digitValue c0 * 10 + digitValue c1, rest)
      else if fixed then none else some (digitValue c0, c1 :: rest)
    else none

/-- The year of layout element `2006`: exactly four digits. -/
def getYear : List Char → Option (Int × List Char)
  | c0 :: c1 :: c2 :: c3 :: rest =>
    if isDigitChar c0 ∧ isDigitChar c1 ∧ isDigitChar c2 ∧ isDigitChar c3 then
      some (((digitValue c0 * 10 + digitValue c1) * 10 + digitValue c2) * 10 + digitValue c3, rest)
    else none
  | _ => none

/-- A literal character of the layout. -/
def skipChar (c : Char) : List Char → Option (List Char)
  | [] => none
  | x :: rest => if x = c then some rest else none

/-- Go `time.Parse("2006-01-02 15:04:05", value)` up to the fields: the numbers
are read in layout order, each range is checked, nothing may follow the
seconds, and the day must exist in its month. -/
def parseDateTime (value : String) : Option Civil :=
  match getYear value.data with
  | none => none
  | some (year, v) =>
  match skipChar '-' v with
  | none => none
  | some v =>
  match getnum v true with
  | none => none
  | some (month, v) =>
  match skipChar '-' v with
  | none => none
  | some v =>
  match getnum v true with
  | none => none
  | some (day, v) =>
  match skipChar ' ' v with
  | none => none
  | some v =>
  match getnum v false with
  | none => none
  | some (hour, v) =>
  match skipChar ':' v with
  | none => none
  | some v =>
  match getnum v true with
  | none => none
  | some (minute, v) =>
  match skipChar ':' v with
  | none => none
  | some v =>
  match getnum v true with
  | none => none
  | some (second, v) =>
    if v = [] ∧ 1 ≤ month ∧ month ≤ 12 ∧ hour < 24 ∧ minute < 60 ∧ second < 60 ∧
        1 ≤ day ∧ day ≤ daysIn month year then
      some { year := year, month := month, day := day, hour := hour, minute := minute,
             second := second }
    else none

/-- Go `time.ParseInLocation` with the same layout in a zone of fixed offset
`off` (seconds east of UTC): the instant, in Unix seconds. -/
def parseInZone (off : Int) (value : String) : Option Int :=
  (parseDateTime value).map (fun c => wallOfCivil c - off)

/-- A zone of fixed offset. -/
def fixedZone (off : Int) : Int → Int := fun _ => off

/-- The sample world at the start of a second run, one second after the first
run has made its extraction folder. -/
def secondRunWorld : World :=
  { (setupExtractionFolder (memOS sampleDecode utc) sampleWorld).2 with clock := 1700000001 }

/-! ## Copying a tree, in the words of the specification -/

/-- Two nodes agree for the purpose of a copy: both are directories, or both
are files with the same bytes. -/
def Node.same : Node → Node → Prop
  | .file d, .file d' => d = d'
  | .dir _, .dir _ => True
  | _, _ => False

/-- Every entry has a parent, and the parent is a directory. -/
def WellFormed (fs : FS) : Prop :=
  ∀ q name, fs.lookup (q ++ [name]) ≠ none → ∃ mode, fs.lookup q = some (.dir mode)

/-- The entry of the source tree at relative path `rel` (as it was in `fs0`)
is present under `dst` in `fs`, with the same kind and bytes. -/
def Copied (fs0 : FS) (src dst : Path) (fs : FS) (rel : Path) : Prop :=
  ∀ n, fs0.lookup (src ++ rel) = some n → ∃ n', fs.lookup (dst ++ rel) = some n' ∧ Node.same n' n

/-- A stretch of the copy from `fs1` to `fs2`: the source tree is not
touched, whatever is new under `dst` is a copy of the source entry at the same
relative path of the tree as it was in `fs0`, and what had been copied stays
copied. -/
structure Extends (fs0 : FS) (src dst : Path) (fs1 fs2 : FS) : Prop where
  source : ∀ q, src <+: q → fs2.lookup q = fs1.lookup q
  target : ∀ rel n', fs2.lookup (dst ++ rel) = some n' →
    fs1.lookup (dst ++ rel) = some n' ∨ ∃ n, fs0.lookup (src ++ rel) = some n ∧ Node.same n' n
  kept : ∀ rel, Copied fs0 src dst fs1 rel → Copied fs0 src dst fs2 rel

/-- A world with a source tree `data` (a file, a subdirectory with a file) and
no destination yet. -/
def treeWorld : World :=
  { sampleWorld with
    fs := [([], .dir 511), (["data"], .dir 493), (["data", "a.bin"], .file "bytes of a"),
           (["data", "sub"], .dir 448), (["data", "sub", "b.bin"], .file "bytes of b")] }

/-- What the specification says of a successful `copyDir src dst`: every entry
of the source tree is under `dst` at the same relative path, a directory as a
directory and a file with the same bytes, and `dst` holds nothing else. -/
def CopiesTree (os : OS World) (fuel : Nat) (src dst : Path) (w : World) : Prop :=
  ∀ w2, copyDir os fuel src dst w = some (none, w2) →
    (∀ rel n, w.fs.lookup (src ++ rel) = some n →
      ∃ n', w2.fs.lookup (dst ++ rel) = some n' ∧ Node.same n' n) ∧
    (∀ rel n', w2.fs.lookup (dst ++ rel) = some n' →
      ∃ n, w.fs.lookup (src ++ rel) = some n ∧ Node.same n' n)

/-- The sample world with an image store holding the file `abc` and the
directory `abc.jpg`. -/
def blockedWorld : World :=
  { sampleWorld with
    fs := sampleDirs ++
      [(sampleBase ++ ["GUID", "ukg.db"], .file "db-notepad"),
       (sampleBase ++ ["GUID", "ImageStore"], .dir 493),
       (sampleBase ++ ["GUID", "ImageStore", "abc"], .file "image one"),
       (sampleBase ++ ["GUID", "ImageStore", "abc.jpg"], .dir 493)] }

/-- The world of the scenario for a whole run: the database in the GUID folder
holds the one row whose `ImageToken` is `NULL`, next to an empty image store. -/
def nullScenarioWorld : World :=
  { sampleWorld with
    fs := sampleDirs ++
      [(sampleBase ++ ["GUID", "ukg.db"], .file "db-notepad-null"),
       (sampleBase ++ ["GUID", "ImageStore"], .dir 493)] }

/-! ## Lookup in the in-memory file system -/

namespace FS

theorem lookup_set (fs : FS) (p q : Path) (n : Node) :
    (fs.set p n).lookup q = if q = p then some n else fs.lookup q := by
  simp [set, lookup]

theorem lookup_set_self (fs : FS) (p : Path) (n : Node) : (fs.set p n).lookup p = some n := by
  simp [lookup_set]

theorem lookup_erase (fs : FS) (p q : Path) :
    (fs.erase p).lookup q = if q = p then none else fs.lookup q := by
  induction fs with
  | nil => simp [erase, lookup]
  | cons e fs ih =>
    obtain ⟨k, n⟩ := e
    by_cases hk : k = p
    · have : erase ((k, n) :: fs) p = erase fs p := by simp [erase, hk]
      rw [this, ih]
      by_cases hq : q = p
      · simp [hq]
      · simp [hq, lookup, hk]
    · have : erase ((k, n) :: fs) p = (k, n) :: erase fs p := by simp [erase, hk]
      rw [this]
      by_cases hq : q = k
      · simp [lookup, hq, hk]
      · simp only [lookup, hq, if_false]
        exact ih

theorem lookup_eq_some_mem {fs : FS} {p : Path} {n : Node} (h : fs.lookup p = some n) :
    (p, n) ∈ fs := by
  induction fs with
  | nil => simp [lookup] at h
  | cons e fs ih =>
    obtain ⟨k, m⟩ := e
    by_cases hk : p = k
    · simp [lookup, hk] at h
      simp [hk, h]
    · simp only [lookup, hk, if_false] at h
      exact List.mem_cons_of_mem _ (ih h)

theorem lookup_ne_none_of_mem {fs : FS} {p : Path} {n : Node} (h : (p, n) ∈ fs) :
    fs.lookup p ≠ none := by
  induction fs with
  | nil => simp at h
  | cons e fs ih =>
    obtain ⟨k, m⟩ := e
    by_cases hk : p = k
    · simp [lookup, hk]
    · simp only [lookup, hk, if_false]
      rcases List.mem_cons.mp h with h | h
      · exact absurd (congrArg Prod.fst h) hk
      · exact ih h

theorem create_ok (fs : FS) (p : Path) (h : (fs.create p).1 = none) :
    (fs.create p).2 = fs.set p (.file "") := by
  unfold create at h ⊢
  by_cases h1 : p = []
  · simp [h1] at h
  · by_cases h2 : fs.isDir p.dropLast = true
    · simp only [h1, h2, if_true, if_false] at h ⊢
      split at h <;> simp_all
    · simp [h1, h2] at h

end FS

/-! ## The subfolder (`getGUIDFolder`) -/

theorem firstDir_split (before : List FileInfo) (file : FileInfo) (after : List FileInfo)
    (hbefore : ∀ g ∈ before, g.isDir = false) (hfile : file.isDir = true) :
    firstDir (before ++ file :: after) = .ok file.name := by
  induction before with
  | nil => simp [firstDir, hfile]
  | cons g gs ih =>
    have hg : g.isDir = false := hbefore g (List.mem_cons_self _ _)
    simp only [List.cons_append, firstDir, hg]
    exact ih (fun x hx => hbefore x (List.mem_cons_of_mem _ hx))

theorem firstDir_not_found_iff (files : List FileInfo) :
    firstDir files = .error "no folder found" ↔ ∀ f ∈ files, f.isDir = false := by
  induction files with
  | nil => simp [firstDir]
  | cons g gs ih =>
    by_cases hg : g.isDir = true
    · simp [firstDir, hg]
    · have hg2 : g.isDir = false := by simpa using hg
      simp [firstDir, hg2, ih]

/-- C8: on every listing of the children of the base path, `getGUIDFolder`
returns the name of the first listed directory, and it fails with
`no folder found` exactly when no listed entry is a directory. -/
theorem getGUIDFolder_first_directory {σ : Type} (os : OS σ) (I : Info) (s : σ)
    (files : List FileInfo) (hlist : os.readDir I.path s = .ok files) :
    (∀ before file after, files = before ++ file :: after →
      (∀ g ∈ before, g.isDir = false) → file.isDir = true →
        getGUIDFolder os I s = .ok file.name) ∧
    (getGUIDFolder os I s = .error "no folder found" ↔ ∀ f ∈ files, f.isDir = false) := by
  constructor
  · intro before file after hsplit hbefore hfile
    simp only [getGUIDFolder, hlist, hsplit]
    exact firstDir_split before file after hbefore hfile
  · simp only [getGUIDFolder, hlist]
    exact firstDir_not_found_iff files

/-- C8, on the sample storage root: its listing is `GUID` (a directory) and
`readme.txt` (a file), and `GUID` is returned. -/
theorem getGUIDFolder_first_directory_witness :
    (memOS sampleDecode utc).readDir sampleBase sampleWorld =
        .ok [{ name := "GUID", isDir := true, mode := 511 },
             { name := "readme.txt", isDir := false, mode := 0 }] ∧
      getGUIDFolder (memOS sampleDecode utc)
        { path := sampleBase, username := "alice", dbPath := [], imageStorePath := [],
          extractionFolder := [] } sampleWorld = .ok "GUID" :=
  ⟨by decide,
   (getGUIDFolder_first_directory (memOS sampleDecode utc)
      { path := sampleBase, username := "alice", dbPath := [], imageStorePath := [],
        extractionFolder := [] } sampleWorld
      [{ name := "GUID", isDir := true, mode := 511 },
       { name := "readme.txt", isDir := false, mode := 0 }] (by decide)).1 []
      { name := "GUID", isDir := true, mode := 511 }
      [{ name := "readme.txt", isDir := false, mode := 0 }] rfl (by simp) rfl⟩

/-! ## The report (`writeOutput`) -/

theorem unlines_append (xs ys : List String) : unlines (xs ++ ys) = unlines xs ++ unlines ys := by
  induction xs with
  | nil => simp [unlines]
  | cons x xs ih => simp [unlines, ih, String.append_assoc]

theorem reportText_eq (windowEvents imageEvents : List String) :
    reportText windowEvents imageEvents =
      "Captured Windows:\n" ++ unlines windowEvents ++ "\nImages Taken:\n" ++ unlines imageEvents := by
  have h1 : ("\nImages Taken:\n" : String) = "" ++ "\n" ++ ("Images Taken:" ++ "\n" ++ "") := by decide
  have h2 : ("Captured Windows:\n" : String) = "Captured Windows:" ++ "\n" ++ "" := by decide
  rw [reportText, unlines_append, unlines_append, unlines_append, unlines_append, h1, h2]
  simp only [unlines, String.append_assoc, String.append_empty, String.empty_append]

theorem writeLine_memOS (decode : String → Except String (List Row)) (offset : Int → Int)
    (file : Path) (w : World) (text d : String) (h : w.fs.lookup file = some (.file d)) :
    (writeLine (memOS decode offset) file w text).fs.lookup file = some (.file (d ++ text)) := by
  simp [writeLine, memOS, FS.writeString, h, FS.lookup_set]

theorem writeLines_memOS (decode : String → Except String (List Row)) (offset : Int → Int)
    (file : Path) (entries : List String) (w : World) (d : String)
    (h : w.fs.lookup file = some (.file d)) :
    (entries.foldl (fun s entry => writeLine (memOS decode offset) file s (entry ++ "\n")) w).fs.lookup
      file = some (.file (d ++ unlines entries)) := by
  induction entries generalizing w d with
  | nil => simpa [unlines] using h
  | cons e es ih =>
    simp only [List.foldl_cons, unlines]
    rw [ih _ _ (writeLine_memOS decode offset file w (e ++ "\n") d h)]
    simp [String.append_assoc]

/-- C4: when `writeOutput` reports success on the in-memory system, the file
`TotalRecall.txt` of the extraction folder holds exactly the header
`Captured Windows:`, the window events one per line in list order, a blank
line, the header `Images Taken:` and the image events one per line in list
order; for two empty lists that is the two headers with one blank line between
them. -/
theorem writeOutput_report (decode : String → Except String (List Row)) (offset : Int → Int)
    (extractionFolder : Path) (capturedWindows imagesTaken : List String) (w : World)
    (hok : (writeOutput (memOS decode offset) extractionFolder capturedWindows imagesTaken w).1 = none) :
    (writeOutput (memOS decode offset) extractionFolder capturedWindows imagesTaken w).2.fs.lookup
        (joinPath extractionFolder "TotalRecall.txt") =
      some (.file (reportText capturedWindows imagesTaken)) ∧
    reportText [] [] = "Captured Windows:\n\nImages Taken:\n" := by
  refine ⟨?_, by decide⟩
  simp only [writeOutput] at hok ⊢
  rcases hc : (memOS decode offset).create (joinPath extractionFolder "TotalRecall.txt") w with ⟨e, w1⟩
  cases e with
  | some err => rw [hc] at hok; simp at hok
  | none =>
    have hw1 : w1.fs = w.fs.set (joinPath extractionFolder "TotalRecall.txt") (.file "") := by
      have h1 := congrArg Prod.fst hc
      have h2 := congrArg Prod.snd hc
      simp only [memOS] at h1 h2
      rw [← h2]
      exact FS.create_ok _ _ h1
    have h0 : w1.fs.lookup (joinPath extractionFolder "TotalRecall.txt") = some (.file "") := by
      rw [hw1]; exact FS.lookup_set_self _ _ _
    have h1 := writeLine_memOS decode offset _ w1 "Captured Windows:\n" "" h0
    have h2 := writeLines_memOS decode offset _ capturedWindows _ _ h1
    have h3 := writeLine_memOS decode offset _ _ "\nImages Taken:\n" _ h2
    have h4 := writeLines_memOS decode offset _ imagesTaken _ _ h3
    simp only
    rw [h4, reportText_eq]
    simp

/-- C4, on the sample world: the starting directory exists, so the report of
two events is created in it and reads as the specification lays it out. -/
theorem writeOutput_report_witness :
    (writeOutput (memOS sampleDecode utc) [] ["[t] Notepad"] ["[t] tok"] sampleWorld).2.fs.lookup
        (joinPath [] "TotalRecall.txt") =
      some (.file "Captured Windows:\n[t] Notepad\n\nImages Taken:\n[t] tok\n") :=
  (writeOutput_report sampleDecode utc [] ["[t] Notepad"] ["[t] tok"] sampleWorld (by decide)).1

/-! ## The events (`queryDatabase`) -/

theorem scanRows_nonNull (offset : Int → Int) (rows : List Row)
    (hnull : ∀ r ∈ rows, r.windowTitle ≠ none ∧ r.imageToken ≠ none)
    (capturedWindows imagesTaken : List String) :
    scanRows offset rows capturedWindows imagesTaken =
      .ok (capturedWindows ++ rows.filterMap (windowEvent offset),
           imagesTaken ++ rows.filterMap (imageEvent offset)) := by
  induction rows generalizing capturedWindows imagesTaken with
  | nil => simp [scanRows]
  | cons r rows ih =>
    obtain ⟨title, ts, token⟩ := r
    have h := hnull _ (List.mem_cons_self _ _)
    cases title with
    | none => exact absurd rfl h.1
    | some title =>
      cases token with
      | none => exact absurd rfl h.2
      | some token =>
        simp only [scanRows, scanRow, scanString]
        rw [ih (fun r hr => hnull r (List.mem_cons_of_mem _ hr))]
        by_cases h1 : title = "" <;> by_cases h2 : token = "" <;>
          simp [windowEvent, imageEvent, h1, h2]

theorem length_filterMap_windowEvent (offset : Int → Int) (rows : List Row) :
    (rows.filterMap (windowEvent offset)).length =
      rows.countP (fun r => hasText r.windowTitle) := by
  induction rows with
  | nil => simp
  | cons r rows ih =>
    obtain ⟨title, ts, token⟩ := r
    cases title with
    | none => simp [List.filterMap_cons, windowEvent, ih, List.countP_cons, hasText]
    | some title =>
      by_cases h1 : title = ""
      · simp [List.filterMap_cons, windowEvent, h1, ih, List.countP_cons, hasText]
      · simp [List.filterMap_cons, windowEvent, h1, ih, List.countP_cons, hasText]

theorem length_filterMap_imageEvent (offset : Int → Int) (rows : List Row) :
    (rows.filterMap (imageEvent offset)).length =
      rows.countP (fun r => hasText r.imageToken) := by
  induction rows with
  | nil => simp
  | cons r rows ih =>
    obtain ⟨title, ts, token⟩ := r
    cases token with
    | none => simp [List.filterMap_cons, imageEvent, ih, List.countP_cons, hasText]
    | some token =>
      by_cases h1 : token = ""
      · simp [List.filterMap_cons, imageEvent, h1, ih, List.countP_cons, hasText]
      · simp [List.filterMap_cons, imageEvent, h1, ih, List.countP_cons, hasText]

/-- A `NULL` in either text column of a selected row makes `queryDatabase`
fail: the loop stops at the first such row with the error of `rows.Scan`. -/
theorem scanRows_null (offset : Int → Int) (rows : List Row)
    (hnull : ∃ r ∈ rows, r.windowTitle = none ∨ r.imageToken = none)
    (capturedWindows imagesTaken : List String) :
    ∃ err, scanRows offset rows capturedWindows imagesTaken = .error err := by
  induction rows generalizing capturedWindows imagesTaken with
  | nil =>
    obtain ⟨r, hr, -⟩ := hnull
    simp at hr
  | cons r rows ih =>
    obtain ⟨title, ts, token⟩ := r
    cases title with
    | none => exact ⟨_, rfl⟩
    | some title =>
      cases token with
      | none => exact ⟨_, rfl⟩
      | some token =>
        simp only [scanRows, scanRow, scanString]
        apply ih
        obtain ⟨r, hr, hn⟩ := hnull
        rcases List.mem_cons.mp hr with h | h
        · subst h
          simp at hn
        · exact ⟨r, h, hn⟩

/-- C1, as stated, fails: the one selected row with the empty (non-null) title
and the token `tok` has a non-null title, yet `queryDatabase` returns no window
event for it. -/
theorem counts_nonNull_fails :
    ¬ CountsNonNull utc [{ windowTitle := some "", timeStamp := 1700000000000, imageToken := some "tok" }] := by
  rintro ⟨windowEvents, imageEvents, h, hw, -⟩
  have hrun : extractEvents utc
      [{ windowTitle := some "", timeStamp := 1700000000000, imageToken := some "tok" }] =
      .ok ([], ["[2023-11-14 22:13:20] tok"]) := by decide
  rw [hrun] at h
  have hw2 : windowEvents = [] := by
    injection h with h
    exact (congrArg Prod.fst h).symm
  rw [hw2] at hw
  simp [selected] at hw

/-- C1, amended: on every result set whose selected rows hold no `NULL` in
either text column, `queryDatabase` succeeds; it returns, in row order, one
window event per selected row with a non-empty title and one image event per
selected row with a non-empty token, so exactly as many strings as there are
such rows, and every string is `[` ++ formatted timestamp ++ `] ` ++ payload. -/
theorem queryDatabase_events {σ : Type} (os : OS σ) (dbPath : Path) (s : σ) (table : List Row)
    (hopen : os.sqlOpen dbPath s = none) (hrows : os.tableRows dbPath s = .ok table)
    (hnull : ∀ r ∈ table, selected r = true → r.windowTitle ≠ none ∧ r.imageToken ≠ none) :
    ∃ windowEvents imageEvents,
      queryDatabase os dbPath s = .ok (windowEvents, imageEvents) ∧
      windowEvents = (table.filter selected).filterMap (windowEvent os.zoneOffset) ∧
      imageEvents = (table.filter selected).filterMap (imageEvent os.zoneOffset) ∧
      windowEvents.length = (table.filter selected).countP (fun r => hasText r.windowTitle) ∧
      imageEvents.length = (table.filter selected).countP (fun r => hasText r.imageToken) ∧
      (∀ line ∈ windowEvents, ∃ r ∈ table, ∃ title, r.windowTitle = some title ∧
        line = "[" ++ readableTimestamp os.zoneOffset r.timeStamp ++ "] " ++ title) ∧
      (∀ line ∈ imageEvents, ∃ r ∈ table, ∃ token, r.imageToken = some token ∧
        line = "[" ++ readableTimestamp os.zoneOffset r.timeStamp ++ "] " ++ token) := by
  have hsel : ∀ r ∈ table.filter selected, r.windowTitle ≠ none ∧ r.imageToken ≠ none := by
    intro r hr
    have := List.mem_filter.mp hr
    exact hnull r this.1 this.2
  refine ⟨_, _, ?_, rfl, rfl, length_filterMap_windowEvent _ _, length_filterMap_imageEvent _ _, ?_, ?_⟩
  · simp only [queryDatabase, hopen, hrows, extractEvents]
    rw [scanRows_nonNull _ _ hsel]
    simp
  · intro line hline
    obtain ⟨r, hr, hev⟩ := List.mem_filterMap.mp hline
    refine ⟨r, (List.mem_filter.mp hr).1, ?_⟩
    unfold windowEvent at hev
    split at hev
    · rename_i title htitle
      split_ifs at hev
      exact ⟨title, htitle, by simpa [eventLine] using hev.symm⟩
    · simp at hev
  · intro line hline
    obtain ⟨r, hr, hev⟩ := List.mem_filterMap.mp hline
    refine ⟨r, (List.mem_filter.mp hr).1, ?_⟩
    unfold imageEvent at hev
    split at hev
    · rename_i token htoken
      split_ifs at hev
      exact ⟨token, htoken, by simpa [eventLine] using hev.symm⟩
    · simp at hev

/-- C1, amended, on the sample database, whose selected rows hold no `NULL`:
two window events and one image event, the row with the empty token giving no
image event. -/
theorem queryDatabase_events_witness :
    ∃ windowEvents imageEvents,
      queryDatabase (memOS sampleDecode utc) (sampleBase ++ ["GUID", "ukg.db"]) sampleWorld =
        .ok (windowEvents, imageEvents) ∧
      windowEvents = ["[2023-11-14 22:13:20] Notepad", "[2023-11-14 22:14:21] Editor"] ∧
      imageEvents = ["[2023-11-14 22:14:21] tok-1"] := by
  obtain ⟨windowEvents, imageEvents, hrun, hw, hi, -⟩ :=
    queryDatabase_events (memOS sampleDecode utc) (sampleBase ++ ["GUID", "ukg.db"]) sampleWorld
      [{ windowTitle := some "Notepad", timeStamp := 1700000000000, imageToken := some "" },
       { windowTitle := none, timeStamp := 7, imageToken := none },
       { windowTitle := some "Editor", timeStamp := 1700000061999, imageToken := some "tok-1" }]
      (by decide) (by decide) (by decide)
  refine ⟨windowEvents, imageEvents, hrun, ?_, ?_⟩
  · rw [hw]; decide
  · rw [hi]; decide

/-- The defect behind the `NULL` rows: on the scenario of the specification,
the single row with `WindowTitle = "Notepad"`, `TimeStamp = 1700000000000` and
`ImageToken = NULL`, `queryDatabase` returns no event list but the error of
`rows.Scan`, whatever the zone. -/
theorem queryDatabase_null_token (offset : Int → Int) :
    queryDatabase (memOS sampleDecode offset) ["ukg.db"] nullTokenWorld =
      .error ("failed to scan row: sql: Scan error on column index 2, name \"ImageToken\": " ++
        "converting NULL to string is unsupported") := by
  have hrows : (memOS sampleDecode offset).tableRows ["ukg.db"] nullTokenWorld =
      .ok [{ windowTitle := some "Notepad", timeStamp := 1700000000000, imageToken := none }] := by
    rfl
  have hopen : (memOS sampleDecode offset).sqlOpen ["ukg.db"] nullTokenWorld = none := rfl
  simp only [queryDatabase, hrows, hopen, extractEvents, List.filter, selected, Option.isSome,
    Bool.true_or, scanRows, scanRow, scanString]
  decide

/-- C5: at the scenario of the specification, the single row with
`WindowTitle = "Notepad"`, `TimeStamp = 1700000000000` and `ImageToken = NULL`,
the row is selected by the `WHERE` clause of the query, and on every system and
in every zone, UTC included, once the database opens and the query yields that
row, `queryDatabase` returns the error of `rows.Scan` (a `NULL` does not go into
a Go `string`) and not the window event `[2023-11-14 22:13:20] Notepad` with an
empty image list. -/
theorem queryDatabase_scenario_scan_error {σ : Type} (os : OS σ) (dbPath : Path) (s : σ)
    (hopen : os.sqlOpen dbPath s = none)
    (hrows : os.tableRows dbPath s =
      .ok [{ windowTitle := some "Notepad", timeStamp := 1700000000000, imageToken := none }]) :
    selected { windowTitle := some "Notepad", timeStamp := 1700000000000, imageToken := none } =
        true ∧
      queryDatabase os dbPath s =
        .error ("failed to scan row: sql: Scan error on column index 2, name \"ImageToken\": " ++
          "converting NULL to string is unsupported") ∧
      queryDatabase os dbPath s ≠ .ok (["[2023-11-14 22:13:20] Notepad"], []) := by
  have hrun : queryDatabase os dbPath s =
      .error ("failed to scan row: sql: Scan error on column index 2, name \"ImageToken\": " ++
        "converting NULL to string is unsupported") := by
    simp only [queryDatabase, hrows, hopen, extractEvents, List.filter, selected, Option.isSome,
      Bool.true_or, scanRows, scanRow, scanString]
    decide
  refine ⟨rfl, hrun, ?_⟩
  rw [hrun]
  exact fun h => nomatch h

/-- C5, on the in-memory system in the zone UTC, with the database of the
scenario in the GUID folder: `queryDatabase` returns the error of `rows.Scan`. -/
theorem queryDatabase_scenario_scan_error_witness :
    queryDatabase (memOS sampleDecode utc) (sampleBase ++ ["GUID", "ukg.db"]) nullScenarioWorld =
      .error ("failed to scan row: sql: Scan error on column index 2, name \"ImageToken\": " ++
        "converting NULL to string is unsupported") :=
  (queryDatabase_scenario_scan_error (memOS sampleDecode utc) (sampleBase ++ ["GUID", "ukg.db"])
    nullScenarioWorld (by decide) (by decide)).2.1

/-- A whole run on the database of the scenario, in the zone UTC: the database
is copied, the last message is the error of `rows.Scan`, and no report file is
written. -/
theorem main_scenario_writes_no_report :
    (main (memOS sampleDecode utc) 5 nullScenarioWorld).map (fun w =>
        (w.console.getLast?,
         w.fs.lookup ["2023-11-14-22-13_Recall_Extraction", "ukg.db"],
         w.fs.lookup ["2023-11-14-22-13_Recall_Extraction", "TotalRecall.txt"])) =
      some (some ("failed to scan row: sql: Scan error on column index 2, name \"ImageToken\": " ++
              "converting NULL to string is unsupported\n"),
            some (.file "db-notepad-null"), none) := by
  decide

/-- Timestamps are printed in the local zone: one hour east of UTC the row with
`WindowTitle = "Notepad"`, `TimeStamp = 1700000000000` and an empty (non-null)
`ImageToken` yields `[2023-11-14 23:13:20] Notepad`. -/
theorem local_time_east_of_utc :
    extractEvents (fixedZone 3600)
        [{ windowTitle := some "Notepad", timeStamp := 1700000000000, imageToken := some "" }] =
      .ok (["[2023-11-14 23:13:20] Notepad"], []) := by
  decide

/-- Where the token is stored as the empty string instead of `NULL` and the
offset of the local zone at that time is zero, `queryDatabase` returns exactly
the window event `[2023-11-14 22:13:20] Notepad` and no image event. -/
theorem queryDatabase_notepad {σ : Type} (os : OS σ) (dbPath : Path) (s : σ)
    (hopen : os.sqlOpen dbPath s = none)
    (hrows : os.tableRows dbPath s =
      .ok [{ windowTitle := some "Notepad", timeStamp := 1700000000000, imageToken := some "" }])
    (hzone : os.zoneOffset 1700000000 = 0) :
    queryDatabase os dbPath s = .ok (["[2023-11-14 22:13:20] Notepad"], []) := by
  have hsec : Int.tdiv 1700000000000 1000 = 1700000000 := by decide
  have hciv : localCivil os.zoneOffset 1700000000 = civilOfWall 1700000000 := by
    simp only [localCivil, hzone, add_zero]
  have hline : readableTimestamp os.zoneOffset 1700000000000 = "2023-11-14 22:13:20" := by
    simp only [readableTimestamp, hsec, hciv]
    decide
  simp only [queryDatabase, hopen, hrows, extractEvents, List.filter, selected, Option.isSome,
    Bool.true_or, scanRows, scanRow, scanString, hline]
  decide

/-! ## Errors that are dropped (`renameImages`, `writeOutput`, `main`) -/

theorem renameImages_reports_readDir_only {σ : Type} (os : OS σ) (path : Path) (s : σ)
    (files : List FileInfo) (hlist : os.readDir path s = .ok files) :
    (renameImages os path s).1 = none := by
  simp [renameImages, hlist]

theorem writeOutput_reports_create_only {σ : Type} (os : OS σ) (folder : Path)
    (capturedWindows imagesTaken : List String) (s : σ)
    (hcreate : (os.create (joinPath folder "TotalRecall.txt") s).1 = none) :
    (writeOutput os folder capturedWindows imagesTaken s).1 = none := by
  simp only [writeOutput]
  rcases hc : os.create (joinPath folder "TotalRecall.txt") s with ⟨e, s1⟩
  rw [hc] at hcreate
  simp only at hcreate
  subst hcreate
  rfl

/-- C9: on a disk that refuses every `os.Rename` and fails every
`WriteString`, `renameImages` and `writeOutput` still return `nil`, and the run
goes through every stage to its last message: the image `abc` keeps its name,
the report file is created and stays empty, and the summary is announced.  The
same happens on the plain in-memory system when the image store holds the file
`abc` next to the directory `abc.jpg`: the rename is refused, and the run ends
with the summary and `abc` unrenamed. -/
theorem dropped_errors_run_completes :
    (refusingOS.rename ["ImageStore", "abc"] ["ImageStore", "abc.jpg"] sampleWorld).1 =
        some "access is denied" ∧
      (refusingOS.writeString ["TotalRecall.txt"] "Captured Windows:\n" sampleWorld).1 =
        some "no space left on device" ∧
      (renameImages refusingOS (sampleBase ++ ["GUID", "ImageStore"]) sampleWorld).1 = none ∧
      (writeOutput refusingOS [] ["[t] Notepad"] [] sampleWorld).1 = none ∧
      (main refusingOS 5 sampleWorld).map (fun w =>
          (w.console.getLast?,
           w.fs.lookup ["2023-11-14-22-13_Recall_Extraction", "ImageStore", "abc"],
           w.fs.lookup ["2023-11-14-22-13_Recall_Extraction", "ImageStore", "abc.jpg"],
           w.fs.lookup ["2023-11-14-22-13_Recall_Extraction", "TotalRecall.txt"])) =
        some (some "\nFull extraction folder path: 2023-11-14-22-13_Recall_Extraction\n",
              some (.file "image one"), none, some (.file "")) ∧
      ((memOS sampleDecode utc).rename (sampleStore ++ ["abc"]) (sampleStore ++ ["abc.jpg"])
          blockedWorld).1 = some "access is denied" ∧
      (main (memOS sampleDecode utc) 5 blockedWorld).map (fun w =>
          (w.console.getLast?,
           w.fs.lookup ["2023-11-14-22-13_Recall_Extraction", "ImageStore", "abc"],
           w.fs.lookup ["2023-11-14-22-13_Recall_Extraction", "ImageStore", "abc.jpg"])) =
        some (some "\nFull extraction folder path: 2023-11-14-22-13_Recall_Extraction\n",
              some (.file "image one"), some (.dir 493)) := by
  refine ⟨by decide, by decide, by decide, by decide, by decide, by decide, by decide⟩

/-! ## Names and the suffix `.jpg` -/

theorem hasSuffix_append (a suffix : String) : hasSuffix (a ++ suffix) suffix = true := by
  simp only [hasSuffix, String.data_append]
  exact List.isSuffixOf_iff_suffix.mpr (List.suffix_append _ _)

theorem append_jpg_ne (a : String) : a ++ ".jpg" ≠ a := by
  intro h
  have h1 := congrArg (fun s => s.data.length) h
  simp [String.data_append] at h1

theorem append_right_cancel {a b suffix : String} (h : a ++ suffix = b ++ suffix) : a = b := by
  have h1 := congrArg String.data h
  simp only [String.data_append] at h1
  exact String.ext (List.append_cancel_right h1)

theorem ne_append_jpg_of_not_hasSuffix {a c : String} (hc : hasSuffix c ".jpg" = false) :
    c ≠ a ++ ".jpg" := by
  intro h
  rw [h, hasSuffix_append] at hc
  exact absurd hc (by simp)

theorem appendToPath_joinPath (dir : Path) (name suffix : String) :
    appendToPath (joinPath dir name) suffix = dir ++ [name ++ suffix] := by
  simp [appendToPath, joinPath]

theorem appendToPath_append (dir : Path) (name suffix : String) :
    appendToPath (dir ++ [name]) suffix = dir ++ [name ++ suffix] := by
  simp [appendToPath]

theorem append_singleton_inj {dir : Path} {a b : String} : dir ++ [a] = dir ++ [b] ↔ a = b := by
  constructor
  · intro h
    simpa using List.append_cancel_left h
  · rintro rfl; rfl

theorem not_singleton_isPrefix {dir : Path} {a b : String} (hab : a ≠ b) (rest : Path) :
    ¬ (dir ++ [a]) <+: (dir ++ b :: rest) := by
  intro h
  have h2 : [a] <+: b :: rest := by
    have h3 : dir ++ [a] <+: dir ++ (b :: rest) := h
    exact ( List.prefix_append_right_inj dir).mp h3
  obtain ⟨t, ht⟩ := h2
  simp at ht
  exact hab ht.1

theorem not_isPrefix_of_length_lt {p q : Path} (h : q.length < p.length) : ¬ p <+: q := by
  intro hp
  have := hp.length_le
  omega

/-! ## `os.Rename` in the in-memory file system -/

namespace FS

theorem lookup_cons (k : Path) (n : Node) (fs : FS) (q : Path) :
    lookup ((k, n) :: fs) q = if q = k then some n else lookup fs q := rfl

theorem moveTree_cons_moved (k : Path) (n : Node) (fs : FS) (old new : Path)
    (h : old.isPrefixOf k = true) :
    moveTree ((k, n) :: fs) old new = (new ++ k.drop old.length, n) :: moveTree fs old new := by
  unfold moveTree
  rw [List.map_cons, if_pos h]

theorem moveTree_cons_kept (k : Path) (n : Node) (fs : FS) (old new : Path)
    (h : ¬ old.isPrefixOf k = true) :
    moveTree ((k, n) :: fs) old new = (k, n) :: moveTree fs old new := by
  unfold moveTree
  rw [List.map_cons, if_neg h]

theorem lookup_moveTree_outside (fs : FS) (old new q : Path) (hold : ¬ old <+: q)
    (hnew : ¬ new <+: q) : (fs.moveTree old new).lookup q = fs.lookup q := by
  induction fs with
  | nil => simp [moveTree, lookup]
  | cons e fs ih =>
    obtain ⟨k, n⟩ := e
    by_cases hk : old.isPrefixOf k = true
    · have hk2 : old <+: k := List.isPrefixOf_iff_prefix.mp hk
      have h1 : q ≠ new ++ k.drop old.length := by
        intro h; exact hnew (h ▸ List.prefix_append _ _)
      have h2 : q ≠ k := by
        intro h; exact hold (h ▸ hk2)
      rw [moveTree_cons_moved _ _ _ _ _ hk, lookup_cons, lookup_cons, if_neg h1, if_neg h2]
      exact ih
    · rw [moveTree_cons_kept _ _ _ _ _ hk, lookup_cons, lookup_cons, ih]

theorem lookup_moveTree_old (fs : FS) (old new q : Path) (hold : old <+: q)
    (hnew : ¬ new <+: q) : (fs.moveTree old new).lookup q = none := by
  induction fs with
  | nil => simp [moveTree, lookup]
  | cons e fs ih =>
    obtain ⟨k, n⟩ := e
    by_cases hk : old.isPrefixOf k = true
    · have h1 : q ≠ new ++ k.drop old.length := by
        intro h; exact hnew (h ▸ List.prefix_append _ _)
      rw [moveTree_cons_moved _ _ _ _ _ hk, lookup_cons, if_neg h1]
      exact ih
    · have hk2 : ¬ old <+: k := fun h => hk (List.isPrefixOf_iff_prefix.mpr h)
      have h2 : q ≠ k := by
        intro h; exact hk2 (h ▸ hold)
      rw [moveTree_cons_kept _ _ _ _ _ hk, lookup_cons, if_neg h2]
      exact ih

theorem lookup_moveTree_new (fs : FS) (old new : Path) (hfree : fs.lookup new = none) :
    (fs.moveTree old new).lookup new = fs.lookup old := by
  induction fs with
  | nil => simp [moveTree, lookup]
  | cons e fs ih =>
    obtain ⟨k, n⟩ := e
    have hnk : new ≠ k := by
      intro h
      simp [lookup, h] at hfree
    have hfree2 : lookup fs new = none := by
      rw [lookup_cons, if_neg hnk] at hfree
      exact hfree
    by_cases hk : old.isPrefixOf k = true
    · have hk2 : old <+: k := List.isPrefixOf_iff_prefix.mp hk
      rw [moveTree_cons_moved _ _ _ _ _ hk, lookup_cons, lookup_cons]
      by_cases hko : old = k
      · subst hko
        simp
      · have h1 : new ≠ new ++ k.drop old.length := by
          intro h
          have h3 : k.drop old.length = [] := by
            have := congrArg List.length h
            simp only [List.length_append] at this
            exact List.eq_nil_of_length_eq_zero (by omega)
          have h4 := List.prefix_iff_eq_append.mp hk2
          rw [h3, List.append_nil] at h4
          exact hko h4
        rw [if_neg h1, if_neg hko]
        exact ih hfree2
    · have hk2 : ¬ old <+: k := fun h => hk (List.isPrefixOf_iff_prefix.mpr h)
      have h2 : old ≠ k := by
        intro h; exact hk2 (h ▸ List.prefix_refl _)
      rw [moveTree_cons_kept _ _ _ _ _ hk, lookup_cons, lookup_cons, if_neg hnk, if_neg h2]
      exact ih hfree2

/-- The top level of `dir` after `os.Rename` of entry `a` to entry `b`. -/
theorem rename_view (fs : FS) (dir : Path) (a b : String) (hab : a ≠ b)
    (hdir : fs.isDir dir = true) (c : String) :
    (fs.rename (dir ++ [a]) (dir ++ [b])).2.lookup (dir ++ [c]) =
      (match fs.lookup (dir ++ [a]), fs.lookup (dir ++ [b]) with
        | some (.file _), some (.dir _) => fs.lookup (dir ++ [c])
        | some (.dir _), some _ => fs.lookup (dir ++ [c])
        | none, _ => fs.lookup (dir ++ [c])
        | some n, _ => if c = b then some n else if c = a then none else fs.lookup (dir ++ [c])) := by
  have hne : dir ++ [a] ≠ dir ++ [b] := fun h => hab (append_singleton_inj.mp h)
  have hnil : dir ++ [b] ≠ [] := by simp
  have hparent : fs.isDir (dir ++ [b]).dropLast = true := by simpa using hdir
  have hpre : (dir ++ [a]).isPrefixOf (dir ++ [b]) = false := by
    rw [Bool.eq_false_iff]
    intro h
    exact not_singleton_isPrefix hab [] ( List.isPrefixOf_iff_prefix.mp h)
  have hcb : dir ++ [c] = dir ++ [b] ↔ c = b := append_singleton_inj
  have hca : dir ++ [c] = dir ++ [a] ↔ c = a := append_singleton_inj
  unfold rename
  cases hold : fs.lookup (dir ++ [a]) with
  | none => simp
  | some n =>
    cases n with
    | file d =>
      simp only [hne, hnil, hparent, if_false, false_or, Bool.not_true, Bool.false_eq_true]
      cases hnew : fs.lookup (dir ++ [b]) with
      | none => simp [lookup_set, lookup_erase, hcb, hca]
      | some m =>
        cases m with
        | file d2 => simp [lookup_set, lookup_erase, hcb, hca]
        | dir mode => simp
    | dir mode =>
      simp only [hne, hnil, hparent, hpre, if_false, false_or, Bool.not_true, Bool.false_eq_true]
      cases hnew : fs.lookup (dir ++ [b]) with
      | some m => cases m <;> simp
      | none =>
        simp only
        by_cases h1 : c = b
        · subst h1
          simp [lookup_moveTree_new _ _ _ hnew, hold]
        · by_cases h2 : c = a
          · subst h2
            simp only [h1, if_false, if_true]
            exact lookup_moveTree_old _ _ _ _ ( List.prefix_refl _)
              (not_singleton_isPrefix (fun h => h1 h.symm) [])
          · simp only [h1, h2, if_false]
            exact lookup_moveTree_outside _ _ _ _
              (not_singleton_isPrefix (fun h => h2 h.symm) [])
              (not_singleton_isPrefix (fun h => h1 h.symm) [])

/-- The directory itself is not touched by a rename among its entries. -/
theorem rename_lookup_dir (fs : FS) (dir : Path) (a b : String) :
    (fs.rename (dir ++ [a]) (dir ++ [b])).2.lookup dir = fs.lookup dir := by
  have h1 : dir ≠ dir ++ [b] := by
    intro h
    have := congrArg List.length h
    simp at this
  have h2 : dir ≠ dir ++ [a] := by
    intro h
    have := congrArg List.length h
    simp at this
  unfold rename
  cases fs.lookup (dir ++ [a]) with
  | none => rfl
  | some n =>
    cases n with
    | file d =>
      simp only
      split_ifs
      · rfl
      · rfl
      · split
        · rfl
        · simp [lookup_set, lookup_erase, h1, h2]
    | dir mode =>
      simp only
      split_ifs
      · rfl
      · rfl
      · rfl
      · split
        · rfl
        · exact lookup_moveTree_outside _ _ _ _
            (not_isPrefix_of_length_lt (by simp)) (not_isPrefix_of_length_lt (by simp))

end FS

/-! ## The top level of the image directory under `renameImages` -/

theorem stepView_of_hasSuffix (T : String → Option Node) (a : String)
    (h : hasSuffix a ".jpg" = true) : stepView T a = T := by
  simp [stepView, h]

theorem stepView_of_none (T : String → Option Node) (a : String) (h : T a = none) :
    stepView T a = T := by
  simp [stepView, renameGoes, h]

theorem stepView_of_free (T : String → Option Node) (a : String) (n : Node)
    (hs : hasSuffix a ".jpg" = false) (ha : T a = some n) (hfree : T (a ++ ".jpg") = none) :
    stepView T a = fun c => if c = a ++ ".jpg" then some n else if c = a then none else T c := by
  cases n <;> simp [stepView, renameGoes, hs, ha, hfree]

/-- The top level after the loop of `renameImages` over the names `L`, in a
directory where no name to be handled has its target taken: entries ending in
`.jpg` are as before, the other listed entries have moved to their name with
`.jpg` appended, and nothing else has appeared. -/
theorem foldl_stepView (T0 : String → Option Node)
    (hfree : ∀ a, hasSuffix a ".jpg" = false → T0 a ≠ none → T0 (a ++ ".jpg") = none)
    (L : List String) :
    (∀ c, hasSuffix c ".jpg" = true → T0 c ≠ none → L.foldl stepView T0 c = T0 c) ∧
    (∀ a, hasSuffix a ".jpg" = false → L.foldl stepView T0 a = if a ∈ L then none else T0 a) ∧
    (∀ a, hasSuffix a ".jpg" = false → T0 (a ++ ".jpg") = none →
      L.foldl stepView T0 (a ++ ".jpg") = if a ∈ L then T0 a else none) ∧
    (∀ c, hasSuffix c ".jpg" = true → T0 c = none →
      (∀ a, hasSuffix a ".jpg" = false → c ≠ a ++ ".jpg") → L.foldl stepView T0 c = none) := by
  induction L using List.reverseRecOn with
  | nil =>
    refine ⟨by simp, by simp, by simp, ?_⟩
    intro c _ hc _
    simpa using hc
  | append_singleton L a ih =>
    obtain ⟨i1, i2, i3, i4⟩ := ih
    rw [List.foldl_append, List.foldl_cons, List.foldl_nil]
    by_cases hs : hasSuffix a ".jpg" = true
    · rw [stepView_of_hasSuffix _ _ hs]
      refine ⟨i1, ?_, ?_, i4⟩
      · intro x hx
        have hxa : x ≠ a := by rintro rfl; simp [hs] at hx
        simp [i2 x hx, hxa]
      · intro x hx hx2
        have hxa : x ≠ a := by rintro rfl; simp [hs] at hx
        simp [i3 x hx hx2, hxa]
    · have hs2 : hasSuffix a ".jpg" = false := by simpa using hs
      cases hFa : L.foldl stepView T0 a with
      | none =>
        rw [stepView_of_none _ _ hFa]
        have hFa2 := i2 a hs2
        rw [hFa] at hFa2
        refine ⟨i1, ?_, ?_, i4⟩
        · intro x hx
          by_cases hxa : x = a
          · subst hxa; simp [hFa]
          · simp [i2 x hx, hxa]
        · intro x hx hx2
          by_cases hxa : x = a
          · subst hxa
            rw [i3 x hx hx2]
            by_cases hmem : x ∈ L
            · simp [hmem]
            · simp only [hmem, if_false] at hFa2
              simp [hmem, ← hFa2]
          · simp [i3 x hx hx2, hxa]
      | some n =>
        have hFa2 := i2 a hs2
        rw [hFa] at hFa2
        have hmem : a ∉ L := by
          intro h; simp [h] at hFa2
        simp only [hmem, if_false] at hFa2
        have hT0a : T0 a ≠ none := by rw [← hFa2]; simp
        have hfree0 : T0 (a ++ ".jpg") = none := hfree a hs2 hT0a
        have hFjpg : L.foldl stepView T0 (a ++ ".jpg") = none := by
          rw [i3 a hs2 hfree0]; simp [hmem]
        rw [stepView_of_free _ _ n hs2 hFa hFjpg]
        refine ⟨?_, ?_, ?_, ?_⟩
        · intro c hc hc2
          have h1 : c ≠ a ++ ".jpg" := by
            rintro rfl; exact hc2 hfree0
          have h2 : c ≠ a := by rintro rfl; simp [hs2] at hc
          simp only [h1, h2, if_false]
          exact i1 c hc hc2
        · intro x hx
          have h1 : x ≠ a ++ ".jpg" := ne_append_jpg_of_not_hasSuffix hx
          by_cases hxa : x = a
          · subst hxa; simp [h1]
          · simp [h1, hxa, i2 x hx]
        · intro x hx hx2
          by_cases hxa : x = a
          · subst hxa; simp [hFa2]
          · have h1 : x ++ ".jpg" ≠ a ++ ".jpg" := fun h => hxa (append_right_cancel h)
            have h2 : x ++ ".jpg" ≠ a := by
              rintro rfl; simp [hasSuffix_append] at hs2
            simp [h1, h2, hxa, i3 x hx hx2]
        · intro c hc hc2 hform
          have h1 : c ≠ a ++ ".jpg" := hform a hs2
          have h2 : c ≠ a := by rintro rfl; simp [hs2] at hc
          simp only [h1, h2, if_false]
          exact i4 c hc hc2 hform

theorem isDir_iff_lookup (fs : FS) (p : Path) :
    fs.isDir p = true ↔ ∃ mode, fs.lookup p = some (.dir mode) := by
  unfold FS.isDir
  cases h : fs.lookup p with
  | none => simp
  | some n => cases n <;> simp

theorem renameOne_memOS (decode : String → Except String (List Row)) (offset : Int → Int)
    (dir : Path) (w : World) (file : FileInfo) (hdir : w.fs.isDir dir = true) :
    (renameOne (memOS decode offset) dir w file).fs.view dir = stepView (w.fs.view dir) file.name ∧
    (renameOne (memOS decode offset) dir w file).fs.isDir dir = true := by
  unfold renameOne
  by_cases hs : hasSuffix file.name ".jpg" = true
  · simp [hs, stepView_of_hasSuffix, hdir]
  · have hs2 : hasSuffix file.name ".jpg" = false := by simpa using hs
    simp only [hs2, Bool.not_false, if_true, joinPath, appendToPath_append, memOS]
    constructor
    · funext c
      simp only [FS.view]
      rw [FS.rename_view _ _ _ _ (append_jpg_ne file.name).symm hdir]
      simp only [stepView, renameGoes, hs2, Bool.not_false, Bool.true_and, FS.view]
      cases h1 : w.fs.lookup (dir ++ [file.name]) with
      | none => simp [FS.view]
      | some n =>
        cases n with
        | file d =>
          cases h2 : w.fs.lookup (dir ++ [file.name ++ ".jpg"]) with
          | none => simp [FS.view]
          | some m => cases m <;> simp [FS.view]
        | dir mode =>
          cases h2 : w.fs.lookup (dir ++ [file.name ++ ".jpg"]) with
          | none => simp [FS.view]
          | some m => cases m <;> simp [FS.view]
    · rw [isDir_iff_lookup] at hdir ⊢
      obtain ⟨mode, hm⟩ := hdir
      exact ⟨mode, by rw [FS.rename_lookup_dir]; exact hm⟩

theorem foldl_renameOne_memOS (decode : String → Except String (List Row)) (offset : Int → Int)
    (dir : Path) (files : List FileInfo) (w : World) (hdir : w.fs.isDir dir = true) :
    (files.foldl (renameOne (memOS decode offset) dir) w).fs.view dir =
        (files.map FileInfo.name).foldl stepView (w.fs.view dir) ∧
    (files.foldl (renameOne (memOS decode offset) dir) w).fs.isDir dir = true := by
  induction files generalizing w with
  | nil => exact ⟨rfl, hdir⟩
  | cons f fs ih =>
    obtain ⟨h1, h2⟩ := renameOne_memOS decode offset dir w f hdir
    obtain ⟨h3, h4⟩ := ih _ h2
    simp only [List.foldl_cons, List.map_cons]
    exact ⟨by rw [h3, h1], h4⟩

theorem childName_eq_some (p q : Path) (c : String) :
    FS.childName p q = some c ↔ q = p ++ [c] := by
  unfold FS.childName
  constructor
  · intro h
    cases hq : q.getLast? with
    | none => simp [hq] at h
    | some name =>
      simp only [hq] at h
      split_ifs at h with h1
      have h2 : name = c := by simpa using h
      have h3 := List.dropLast_append_getLast? name hq
      rw [← h3, h1, h2]
  · rintro rfl
    simp

theorem infoOf_name (name : String) (n : Node) : (FS.infoOf name n).name = name := by
  cases n <;> rfl

theorem mem_childNames (fs : FS) (p : Path) (c : String) :
    c ∈ fs.childNames p ↔ ∃ n, (p ++ [c], n) ∈ fs := by
  unfold FS.childNames
  rw [List.mem_insertionSort, List.mem_dedup, List.mem_filterMap]
  constructor
  · rintro ⟨⟨k, n⟩, hmem, hk⟩
    rw [childName_eq_some] at hk
    exact ⟨n, hk ▸ hmem⟩
  · rintro ⟨n, hmem⟩
    exact ⟨(p ++ [c], n), hmem, (childName_eq_some _ _ _).mpr rfl⟩

/-- The listing of `os.ReadDir` in the in-memory file system names exactly the
entries of the directory, with their kind. -/
theorem readDir_memFS (fs : FS) (p : Path) (files : List FileInfo) (h : fs.readDir p = .ok files) :
    fs.isDir p = true ∧
    (∀ f, f ∈ files ↔ ∃ n, fs.lookup (p ++ [f.name]) = some n ∧ f = FS.infoOf f.name n) := by
  unfold FS.readDir at h
  cases hp : fs.lookup p with
  | none => simp [hp] at h
  | some node =>
    cases node with
    | file d => simp [hp] at h
    | dir mode =>
      simp only [hp] at h
      injection h with h
      refine ⟨by simp [FS.isDir, hp], ?_⟩
      intro f
      rw [← h, List.mem_filterMap]
      constructor
      · rintro ⟨c, _, hc⟩
        cases hl : fs.lookup (p ++ [c]) with
        | none => simp [hl] at hc
        | some n =>
          simp only [hl, Option.map_some', Option.some.injEq] at hc
          have hname : f.name = c := by rw [← hc, infoOf_name]
          exact ⟨n, by rw [hname]; exact hl, by rw [hname]; exact hc.symm⟩
      · rintro ⟨n, hl, hf⟩
        refine ⟨f.name, ?_, by rw [hl]; simp [← hf]⟩
        rw [mem_childNames]
        exact ⟨n, FS.lookup_eq_some_mem hl⟩

theorem mem_names_readDir (fs : FS) (p : Path) (files : List FileInfo) (h : fs.readDir p = .ok files)
    (c : String) : c ∈ files.map FileInfo.name ↔ fs.lookup (p ++ [c]) ≠ none := by
  have h2 := (readDir_memFS fs p files h).2
  rw [List.mem_map]
  constructor
  · rintro ⟨f, hf, rfl⟩
    obtain ⟨n, hn, -⟩ := (h2 f).mp hf
    simp [hn]
  · intro hc
    cases hl : fs.lookup (p ++ [c]) with
    | none => exact absurd hl hc
    | some n =>
      refine ⟨FS.infoOf c n, (h2 _).mpr ⟨n, ?_, ?_⟩, infoOf_name c n⟩
      · rw [infoOf_name]; exact hl
      · rw [infoOf_name]

theorem readDir_ok_of_isDir (fs : FS) (p : Path) (h : fs.isDir p = true) :
    ∃ files, fs.readDir p = .ok files := by
  obtain ⟨mode, hm⟩ := (isDir_iff_lookup fs p).mp h
  simp [FS.readDir, hm]

/-- C3, as stated, fails: in the image store holding the files `abc` and
`abc.jpg`, the entry `abc.jpg` is not left unchanged; the rename of `abc`
replaces it. -/
theorem renameImages_replaces_jpg_entry :
    ¬ Normalizes (memOS sampleDecode utc) ["ImageStore"] collisionWorld := by
  intro h
  have hkept := (h [{ name := "abc", isDir := false, mode := 0 },
    { name := "abc.jpg", isDir := false, mode := 0 }] (by decide)).1
    { name := "abc.jpg", isDir := false, mode := 0 } (by simp) (by decide)
  revert hkept
  decide

/-- The effect of `renameImages` on a listing in which no entry to be renamed
finds its new name taken. -/
theorem renameImages_of_free (decode : String → Except String (List Row)) (offset : Int → Int)
    (dir : Path) (w : World) (files : List FileInfo)
    (hlist : (memOS decode offset).readDir dir w = .ok files)
    (hfree : ∀ f ∈ files, hasSuffix f.name ".jpg" = false →
      ∀ g ∈ files, g.name ≠ f.name ++ ".jpg") :
    (renameImages (memOS decode offset) dir w).1 = none ∧
    Normalizes (memOS decode offset) dir w ∧
    (∃ files', (memOS decode offset).readDir dir (renameImages (memOS decode offset) dir w).2 =
        .ok files' ∧
      ∀ g ∈ files', ∃ f ∈ files,
        g.name = if hasSuffix f.name ".jpg" then f.name else f.name ++ ".jpg") := by
  have hlist0 : w.fs.readDir dir = .ok files := hlist
  obtain ⟨hdir, -⟩ := readDir_memFS _ _ _ hlist0
  have hmem := mem_names_readDir _ _ _ hlist0
  have hfree0 : ∀ a, hasSuffix a ".jpg" = false → w.fs.view dir a ≠ none →
      w.fs.view dir (a ++ ".jpg") = none := by
    intro a ha hne
    obtain ⟨f, hf, hfa⟩ := List.mem_map.mp ((hmem a).mpr hne)
    by_contra hcon
    obtain ⟨g, hg, hga⟩ := List.mem_map.mp ((hmem (a ++ ".jpg")).mpr hcon)
    exact hfree f hf (hfa ▸ ha) g hg (by rw [hga, hfa])
  obtain ⟨hview, hdir2⟩ := foldl_renameOne_memOS decode offset dir files w hdir
  obtain ⟨i1, i2, i3, i4⟩ := foldl_stepView (w.fs.view dir) hfree0 (files.map FileInfo.name)
  have hrun : (renameImages (memOS decode offset) dir w) =
      (none, files.foldl (renameOne (memOS decode offset) dir) w) := by
    simp only [renameImages, hlist]
  have hlook : ∀ c, (renameImages (memOS decode offset) dir w).2.fs.lookup (dir ++ [c]) =
      (files.map FileInfo.name).foldl stepView (w.fs.view dir) c := by
    intro c
    rw [hrun, ← hview]
    rfl
  have hnames : ∀ c, (renameImages (memOS decode offset) dir w).2.fs.lookup (dir ++ [c]) ≠ none →
      hasSuffix c ".jpg" = true ∧ ∃ f ∈ files,
        c = if hasSuffix f.name ".jpg" then f.name else f.name ++ ".jpg" := by
    intro c hc
    rw [hlook] at hc
    by_cases hs : hasSuffix c ".jpg" = true
    · refine ⟨hs, ?_⟩
      by_cases h0 : w.fs.view dir c = none
      · by_cases hform : ∃ a, hasSuffix a ".jpg" = false ∧ c = a ++ ".jpg"
        · obtain ⟨a, ha, rfl⟩ := hform
          rw [i3 a ha h0] at hc
          by_cases hamem : a ∈ files.map FileInfo.name
          · obtain ⟨f, hf, hfa⟩ := List.mem_map.mp hamem
            exact ⟨f, hf, by rw [hfa]; simp [ha]⟩
          · simp [hamem] at hc
        · exact absurd (i4 c hs h0 (fun a ha hca => hform ⟨a, ha, hca⟩)) hc
      · obtain ⟨f, hf, hfa⟩ := List.mem_map.mp ((hmem c).mpr h0)
        exact ⟨f, hf, by rw [hfa]; simp [hs]⟩
    · have hs2 : hasSuffix c ".jpg" = false := by simpa using hs
      rw [i2 c hs2] at hc
      by_cases hcm : c ∈ files.map FileInfo.name
      · simp [hcm] at hc
      · simp only [hcm, if_false] at hc
        exact absurd ((hmem c).mpr hc) hcm
  refine ⟨by rw [hrun], ?_, ?_⟩
  · intro files2 hlist2
    have hfl : files2 = files := by
      rw [hlist] at hlist2
      injection hlist2 with h
      exact h.symm
    subst hfl
    refine ⟨?_, ?_, ?_⟩
    · intro f hf hs
      rw [hlook]
      exact i1 f.name hs ((hmem f.name).mp (List.mem_map_of_mem _ hf))
    · intro f hf hs
      have hfm : f.name ∈ files2.map FileInfo.name := List.mem_map_of_mem _ hf
      have hex := (hmem f.name).mp hfm
      rw [hlook, hlook, i3 f.name hs (hfree0 f.name hs hex), i2 f.name hs]
      simp [hfm, FS.view]
    · intro files' hlist' g hg
      have hlist0' : (renameImages (memOS decode offset) dir w).2.fs.readDir dir = .ok files' := hlist'
      have := (mem_names_readDir _ _ _ hlist0' g.name).mp (List.mem_map_of_mem _ hg)
      exact (hnames g.name this).1
  · have hd : (renameImages (memOS decode offset) dir w).2.fs.isDir dir = true := by
      rw [hrun]; exact hdir2
    obtain ⟨files', hlist'⟩ := readDir_ok_of_isDir _ _ hd
    refine ⟨files', hlist', ?_⟩
    intro g hg
    have := (mem_names_readDir _ _ _ hlist' g.name).mp (List.mem_map_of_mem _ hg)
    exact (hnames g.name this).2

/-- C3, amended: on every listing of a directory in which no entry to be
renamed finds its new name taken by another entry, `renameImages` returns
`nil`, leaves every entry whose name ends in `.jpg` as it is, moves every other
entry to its name with `.jpg` appended once, and afterwards the directory lists
only names ending in `.jpg`, each of them an old name kept or an old name with
`.jpg` appended; the store `abc`, `def.jpg`, `ghi.png` becomes `abc.jpg`,
`def.jpg`, `ghi.png.jpg`. -/
theorem renameImages_normalizes (decode : String → Except String (List Row)) (offset : Int → Int)
    (dir : Path) (w : World) (files : List FileInfo)
    (hlist : (memOS decode offset).readDir dir w = .ok files)
    (hfree : ∀ f ∈ files, hasSuffix f.name ".jpg" = false →
      ∀ g ∈ files, g.name ≠ f.name ++ ".jpg") :
    (renameImages (memOS decode offset) dir w).1 = none ∧
    Normalizes (memOS decode offset) dir w ∧
    (∃ files', (memOS decode offset).readDir dir (renameImages (memOS decode offset) dir w).2 =
        .ok files' ∧
      ∀ g ∈ files', ∃ f ∈ files,
        g.name = if hasSuffix f.name ".jpg" then f.name else f.name ++ ".jpg") ∧
    ((renameImages (memOS sampleDecode utc) sampleStore sampleWorld).2.fs.readDir sampleStore).toOption.map
        (fun l => l.map FileInfo.name) = some ["abc.jpg", "def.jpg", "ghi.png.jpg"] := by
  obtain ⟨h1, h2, h3⟩ := renameImages_of_free decode offset dir w files hlist hfree
  exact ⟨h1, h2, h3, by decide⟩

/-- C3, amended, on the specification's store `abc`, `def.jpg`, `ghi.png`: no
new name is taken, and the three entries end up under `abc.jpg`, `def.jpg` and
`ghi.png.jpg` with their contents. -/
theorem renameImages_normalizes_witness :
    (renameImages (memOS sampleDecode utc) sampleStore sampleWorld).1 = none ∧
    Normalizes (memOS sampleDecode utc) sampleStore sampleWorld ∧
    (renameImages (memOS sampleDecode utc) sampleStore sampleWorld).2.fs.lookup
        (sampleStore ++ ["abc.jpg"]) = some (.file "image one") :=
  have h := renameImages_normalizes sampleDecode utc sampleStore sampleWorld
    [{ name := "abc", isDir := false, mode := 0 }, { name := "def.jpg", isDir := false, mode := 0 },
     { name := "ghi.png", isDir := false, mode := 0 }] (by decide) (by decide)
  ⟨h.1, h.2.1, by decide⟩

/-! ## A second run of `renameImages` -/

theorem foldl_renameOne_of_hasSuffix {σ : Type} (os : OS σ) (dir : Path) (files : List FileInfo)
    (s : σ) (hall : ∀ f ∈ files, hasSuffix f.name ".jpg" = true) :
    files.foldl (renameOne os dir) s = s := by
  induction files generalizing s with
  | nil => rfl
  | cons f fs ih =>
    have hf : hasSuffix f.name ".jpg" = true := hall f (List.mem_cons_self _ _)
    rw [List.foldl_cons]
    have h1 : renameOne os dir s f = s := by simp [renameOne, hf]
    rw [h1]
    exact ih s (fun g hg => hall g (List.mem_cons_of_mem _ hg))

/-- On a directory whose listed names all end in `.jpg`, `renameImages` calls
`os.Rename` on nothing and leaves the world as it is. -/
theorem renameImages_of_normalized {σ : Type} (os : OS σ) (dir : Path) (s : σ)
    (files : List FileInfo) (hlist : os.readDir dir s = .ok files)
    (hall : ∀ f ∈ files, hasSuffix f.name ".jpg" = true) :
    renameImages os dir s = (none, s) := by
  simp only [renameImages, hlist]
  rw [foldl_renameOne_of_hasSuffix os dir files s hall]

/-- In the in-memory file system, a second run after a first run in which no
new name was taken changes nothing. -/
theorem renameImages_twice_of_free (decode : String → Except String (List Row))
    (offset : Int → Int) (dir : Path) (w : World) (files : List FileInfo)
    (hlist : (memOS decode offset).readDir dir w = .ok files)
    (hfree : ∀ f ∈ files, hasSuffix f.name ".jpg" = false →
      ∀ g ∈ files, g.name ≠ f.name ++ ".jpg") :
    renameImages (memOS decode offset) dir (renameImages (memOS decode offset) dir w).2 =
      (none, (renameImages (memOS decode offset) dir w).2) := by
  obtain ⟨-, hnorm, ⟨files', hlist', -⟩⟩ :=
    renameImages_of_free decode offset dir w files hlist hfree
  exact renameImages_of_normalized _ dir _ files' hlist' ((hnorm files hlist).2.2 files' hlist')

/-- C7: a rename that is refused is not reported, so the result of a first run
need not be normalized.  In the store holding the file `abc` and the directory
`abc.jpg` the first run returns `nil` and keeps the name `abc`, which fails the
`.jpg` test; and when `abc` is held open during the first run only, the first
run returns `nil` with `abc` kept and the second run renames it. -/
theorem renameImages_second_run_renames :
    ((memOS sampleDecode utc).rename ["ImageStore", "abc"] ["ImageStore", "abc.jpg"] refusedWorld).1 =
      some "access is denied" ∧
    (renameImages (memOS sampleDecode utc) ["ImageStore"] refusedWorld).1 = none ∧
    listedNames (memOS sampleDecode utc) ["ImageStore"]
        (renameImages (memOS sampleDecode utc) ["ImageStore"] refusedWorld).2 =
      some ["abc", "abc.jpg"] ∧
    hasSuffix "abc" ".jpg" = false ∧
    (renameImages (heldOS (memOS sampleDecode utc)) sampleStore (sampleWorld, 1)).1 = none ∧
    listedNames (heldOS (memOS sampleDecode utc)) sampleStore
        (renameImages (heldOS (memOS sampleDecode utc)) sampleStore (sampleWorld, 1)).2 =
      some ["abc", "def.jpg", "ghi.png.jpg"] ∧
    listedNames (heldOS (memOS sampleDecode utc)) sampleStore
        (renameImages (heldOS (memOS sampleDecode utc)) sampleStore
          (renameImages (heldOS (memOS sampleDecode utc)) sampleStore (sampleWorld, 1)).2).2 =
      some ["abc.jpg", "def.jpg", "ghi.png.jpg"] := by
  refine ⟨by decide, by decide, by decide, by decide, by decide, by decide, by decide⟩

/-! ## The calendar -/

theorem yearDay_cycles (days : Int) :
    ∃ n400 n100 n4 n1 : Int, 0 ≤ n100 ∧ n100 ≤ 3 ∧ 0 ≤ n4 ∧ n4 ≤ 24 ∧ 0 ≤ n1 ∧ n1 ≤ 3 ∧
      (yearDay days).1 = 400 * n400 + 100 * n100 + 4 * n4 + n1 + 1 ∧
      days = 146097 * n400 + 36524 * n100 + 1461 * n4 + 365 * n1 + (yearDay days).2 ∧
      0 ≤ (yearDay days).2 ∧
      ((yearDay days).2 ≤ 364 ∨ ((yearDay days).2 = 365 ∧ n1 = 3 ∧ (n4 ≠ 24 ∨ n100 = 3))) := by
  simp only [yearDay]
  generalize hn400 : days / 146097 = n400
  generalize hd0 : days % 146097 = d0
  have b0 : 0 ≤ d0 ∧ d0 ≤ 146096 ∧ days = 146097 * n400 + d0 := by omega
  clear hn400 hd0
  generalize hq100 : d0 / 36524 = q100
  generalize hn100 : q100 - q100 / 4 = n100
  have b1 : 0 ≤ n100 ∧ n100 ≤ 3 ∧ 0 ≤ d0 - 36524 * n100 ∧ d0 - 36524 * n100 ≤ 36524 ∧
      (n100 ≤ 2 → d0 - 36524 * n100 ≤ 36523) := by omega
  clear hq100 hn100
  generalize hd1 : d0 - 36524 * n100 = d1 at *
  generalize hn4 : d1 / 1461 = n4
  have b2 : 0 ≤ n4 ∧ n4 ≤ 24 ∧ 0 ≤ d1 - 1461 * n4 ∧ d1 - 1461 * n4 ≤ 1460 ∧
      (n4 = 24 → d1 ≤ 36523 → d1 - 1461 * n4 ≤ 1459) := by omega
  clear hn4
  generalize hd2 : d1 - 1461 * n4 = d2 at *
  generalize hq1 : d2 / 365 = q1
  generalize hn1 : q1 - q1 / 4 = n1
  have b3 : 0 ≤ n1 ∧ n1 ≤ 3 ∧ 0 ≤ d2 - 365 * n1 ∧ d2 - 365 * n1 ≤ 365 ∧
      (n1 ≤ 2 → d2 - 365 * n1 ≤ 364) ∧ (d2 ≤ 1459 → d2 - 365 * n1 ≤ 364) := by omega
  clear hq1 hn1
  refine ⟨n400, n100, n4, n1, by omega, by omega, by omega, by omega, by omega, by omega, rfl,
    by omega, by omega, ?_⟩
  by_cases h : d2 - 365 * n1 ≤ 364
  · exact Or.inl h
  · refine Or.inr ⟨by omega, by omega, ?_⟩
    by_cases h24 : n4 = 24
    · right; omega
    · left; exact h24

theorem daysSinceEpoch_cycles (n400 n100 n4 n1 : Int) (h1 : 0 ≤ n100) (h2 : n100 ≤ 3)
    (h3 : 0 ≤ n4) (h4 : n4 ≤ 24) (h5 : 0 ≤ n1) (h6 : n1 ≤ 3) :
    daysSinceEpoch (400 * n400 + 100 * n100 + 4 * n4 + n1 + 1) =
      146097 * n400 + 36524 * n100 + 1461 * n4 + 365 * n1 := by
  simp only [daysSinceEpoch]
  have e1 : (400 * n400 + 100 * n100 + 4 * n4 + n1 + 1 - 1) / 400 = n400 := by omega
  rw [e1]
  have e2 : (400 * n400 + 100 * n100 + 4 * n4 + n1 + 1 - 1 - 400 * n400) / 100 = n100 := by omega
  rw [e2]
  have e3 : (400 * n400 + 100 * n100 + 4 * n4 + n1 + 1 - 1 - 400 * n400 - 100 * n100) / 4 = n4 := by
    omega
  rw [e3]
  omega

theorem isLeap_cycles (n400 n100 n4 n1 : Int) (h1 : 0 ≤ n100) (h2 : n100 ≤ 3)
    (h3 : 0 ≤ n4) (h4 : n4 ≤ 24) (h5 : 0 ≤ n1) (h6 : n1 ≤ 3) :
    isLeap (400 * n400 + 100 * n100 + 4 * n4 + n1 + 1) = true ↔ n1 = 3 ∧ (n4 ≠ 24 ∨ n100 = 3) := by
  simp only [isLeap, decide_eq_true_eq]
  omega

theorem yearDay_spec (days : Int) :
    daysSinceEpoch (yearDay days).1 + (yearDay days).2 = days ∧ 0 ≤ (yearDay days).2 ∧
    (yearDay days).2 < (if isLeap (yearDay days).1 then 366 else 365) := by
  obtain ⟨n400, n100, n4, n1, h1, h2, h3, h4, h5, h6, hy, hd, h0, hlast⟩ := yearDay_cycles days
  rw [hy, daysSinceEpoch_cycles _ _ _ _ h1 h2 h3 h4 h5 h6]
  refine ⟨by omega, h0, ?_⟩
  rcases hlast with h | ⟨h, hn1, hl⟩
  · split_ifs <;> omega
  · rw [if_pos ((isLeap_cycles _ _ _ _ h1 h2 h3 h4 h5 h6).mpr ⟨hn1, hl⟩)]
    omega



theorem daysBefore_values :
    daysBefore 0 = 0 ∧ daysBefore 1 = 31 ∧ daysBefore 2 = 59 ∧ daysBefore 3 = 90 ∧
    daysBefore 4 = 120 ∧ daysBefore 5 = 151 ∧ daysBefore 6 = 181 ∧ daysBefore 7 = 212 ∧
    daysBefore 8 = 243 ∧ daysBefore 9 = 273 ∧ daysBefore 10 = 304 ∧ daysBefore 11 = 334 ∧
    daysBefore 12 = 365 := by decide

theorem monthOfDay_spec (day : Int) (h0 : 0 ≤ day) (h1 : day ≤ 364) :
    1 ≤ (monthOfDay day).1 ∧ (monthOfDay day).1 ≤ 12 ∧ 1 ≤ (monthOfDay day).2 ∧
    (monthOfDay day).2 ≤ daysBefore (monthOfDay day).1 - daysBefore ((monthOfDay day).1 - 1) ∧
    daysBefore ((monthOfDay day).1 - 1) + ((monthOfDay day).2 - 1) = day := by
  obtain ⟨v0, v1, v2, v3, v4, v5, v6, v7, v8, v9, v10, v11, v12⟩ := daysBefore_values
  have hm : day / 31 = 0 ∨ day / 31 = 1 ∨ day / 31 = 2 ∨ day / 31 = 3 ∨ day / 31 = 4 ∨
      day / 31 = 5 ∨ day / 31 = 6 ∨ day / 31 = 7 ∨ day / 31 = 8 ∨ day / 31 = 9 ∨
      day / 31 = 10 ∨ day / 31 = 11 := by omega
  unfold monthOfDay
  rcases hm with h | h | h | h | h | h | h | h | h | h | h | h <;>
    (simp only [h, Int.reduceAdd, Int.reduceSub, v0, v1, v2, v3, v4, v5, v6, v7, v8, v9, v10, v11, v12]
     split_ifs <;>
       simp only [Int.reduceAdd, Int.reduceSub, Int.add_sub_cancel, v0, v1, v2, v3, v4, v5, v6, v7,
         v8, v9, v10, v11, v12] <;> omega)

theorem monthDay_spec (year yday : Int) (h0 : 0 ≤ yday)
    (h1 : yday < (if isLeap year then 366 else 365)) :
    1 ≤ (monthDay year yday).1 ∧ (monthDay year yday).1 ≤ 12 ∧ 1 ≤ (monthDay year yday).2 ∧
    (monthDay year yday).2 ≤ daysIn (monthDay year yday).1 year ∧
    daysBefore ((monthDay year yday).1 - 1) +
      (if isLeap year ∧ (monthDay year yday).1 ≥ 3 then 1 else 0) +
      ((monthDay year yday).2 - 1) = yday := by
  obtain ⟨v0, v1, v2, v3, v4, v5, v6, v7, v8, v9, v10, v11, v12⟩ := daysBefore_values
  by_cases hl : isLeap year = true
  · simp only [hl, if_true] at h1
    by_cases h59 : yday = 59
    · simp only [monthDay, daysIn, hl, h59, and_self, if_true, Int.reduceSub, v1]
      decide
    · by_cases hgt : yday > 59
      · have hmd : monthDay year yday = monthOfDay (yday - 1) := by
          simp [monthDay, hl, h59, hgt]
        obtain ⟨a1, a2, a3, a4, a5⟩ := monthOfDay_spec (yday - 1) (by omega) (by omega)
        rw [hmd]
        generalize (monthOfDay (yday - 1)).1 = m at *
        generalize (monthOfDay (yday - 1)).2 = d at *
        have hm : m = 1 ∨ m = 2 ∨ m = 3 ∨ m = 4 ∨ m = 5 ∨ m = 6 ∨ m = 7 ∨ m = 8 ∨ m = 9 ∨
            m = 10 ∨ m = 11 ∨ m = 12 := by omega
        rcases hm with h | h | h | h | h | h | h | h | h | h | h | h <;> subst h <;>
          simp only [Int.reduceSub, v0, v1, v2, v3, v4, v5, v6, v7, v8, v9, v10, v11, v12] at a4 a5 <;>
          simp only [daysIn, hl, Int.reduceSub, v0, v1, v2, v3, v4, v5, v6, v7, v8, v9, v10, v11, v12] <;>
          simp <;> omega
      · have hmd : monthDay year yday = monthOfDay yday := by
          simp [monthDay, hl, h59, hgt]
        obtain ⟨a1, a2, a3, a4, a5⟩ := monthOfDay_spec yday (by omega) (by omega)
        rw [hmd]
        generalize (monthOfDay yday).1 = m at *
        generalize (monthOfDay yday).2 = d at *
        have hm : m = 1 ∨ m = 2 ∨ m = 3 ∨ m = 4 ∨ m = 5 ∨ m = 6 ∨ m = 7 ∨ m = 8 ∨ m = 9 ∨
            m = 10 ∨ m = 11 ∨ m = 12 := by omega
        rcases hm with h | h | h | h | h | h | h | h | h | h | h | h <;> subst h <;>
          simp only [Int.reduceSub, v0, v1, v2, v3, v4, v5, v6, v7, v8, v9, v10, v11, v12] at a4 a5 <;>
          simp only [daysIn, hl, Int.reduceSub, v0, v1, v2, v3, v4, v5, v6, v7, v8, v9, v10, v11, v12] <;>
          simp <;> omega
  · have hl2 : isLeap year = false := by simpa using hl
    simp only [hl2] at h1
    have hmd : monthDay year yday = monthOfDay yday := by
      simp [monthDay, hl2]
    obtain ⟨a1, a2, a3, a4, a5⟩ := monthOfDay_spec yday h0 (by simp at h1; omega)
    rw [hmd]
    simp only [daysIn, hl2]
    simp only [Bool.false_eq_true, and_false, false_and, if_false]
    exact ⟨a1, a2, a3, a4, by omega⟩

/-- The civil fields of a wall clock are in range and give the wall clock
back. -/
theorem civilOfWall_spec (wall : Int) :
    wallOfCivil (civilOfWall wall) = wall ∧
    1 ≤ (civilOfWall wall).month ∧ (civilOfWall wall).month ≤ 12 ∧
    1 ≤ (civilOfWall wall).day ∧
    (civilOfWall wall).day ≤ daysIn (civilOfWall wall).month (civilOfWall wall).year ∧
    0 ≤ (civilOfWall wall).hour ∧ (civilOfWall wall).hour < 24 ∧
    0 ≤ (civilOfWall wall).minute ∧ (civilOfWall wall).minute < 60 ∧
    0 ≤ (civilOfWall wall).second ∧ (civilOfWall wall).second < 60 := by
  obtain ⟨y1, y2, y3⟩ := yearDay_spec (wall / 86400 + 719162)
  obtain ⟨m1, m2, m3, m4, m5⟩ := monthDay_spec _ _ y2 y3
  simp only [wallOfCivil, civilOfWall]
  refine ⟨?_, m1, m2, m3, m4, by omega, by omega, by omega, by omega, by omega, by omega⟩
  rw [show daysSinceEpoch (yearDay (wall / 86400 + 719162)).1 +
      daysBefore ((monthDay (yearDay (wall / 86400 + 719162)).1
        (yearDay (wall / 86400 + 719162)).2).1 - 1) +
      (if isLeap (yearDay (wall / 86400 + 719162)).1 = true ∧
          (monthDay (yearDay (wall / 86400 + 719162)).1 (yearDay (wall / 86400 + 719162)).2).1 ≥ 3
        then 1 else 0) +
      ((monthDay (yearDay (wall / 86400 + 719162)).1 (yearDay (wall / 86400 + 719162)).2).2 - 1) =
      wall / 86400 + 719162 by omega]
  omega

/-- The wall clocks of the years 0000 to 9999. -/
theorem year_range (wall : Int) (h0 : -62167219200 ≤ wall) (h1 : wall < 253402300800) :
    0 ≤ (civilOfWall wall).year ∧ (civilOfWall wall).year ≤ 9999 := by
  obtain ⟨n400, n100, n4, n1, b1, b2, b3, b4, b5, b6, hy, hd, h0', hlast⟩ :=
    yearDay_cycles (wall / 86400 + 719162)
  simp only [civilOfWall]
  rw [hy]
  have hyd : (yearDay (wall / 86400 + 719162)).2 ≤ 365 := by omega
  generalize (yearDay (wall / 86400 + 719162)).2 = yd at *
  have hdays : -366 ≤ wall / 86400 + 719162 ∧ wall / 86400 + 719162 ≤ 3652058 := by omega
  generalize wall / 86400 + 719162 = days at *
  clear hy h0 h1
  have hn : -1 ≤ n400 ∧ n400 ≤ 24 := by omega
  obtain ⟨hn1, hn2⟩ := hn
  have hlast2 : yd ≤ 364 ∨ n1 = 3 := by
    rcases hlast with h | h
    · exact Or.inl h
    · exact Or.inr h.2.1
  clear hlast
  interval_cases n100 <;> interval_cases n1 <;> constructor <;> omega

/-! ## Digits -/

theorem digitChar_spec (d : Nat) :
    isDigitChar (digitChar d) = true ∧ digitValue (digitChar d) = ((d % 10 : Nat) : Int) := by
  have h : d % 10 < 10 := Nat.mod_lt _ (by decide)
  unfold digitChar
  generalize d % 10 = k at h
  interval_cases k <;> exact ⟨by decide, by decide⟩

theorem appendInt_two (x : Int) (h0 : 0 ≤ x) (h1 : x < 100) :
    (appendInt x 2).data = [digitChar (x.toNat / 10), digitChar x.toNat] := by
  obtain ⟨n, rfl⟩ := Int.eq_ofNat_of_zero_le h0
  have hn : n < 100 := by omega
  have hneg : ¬ ((n : Int) < 0) := by omega
  simp [appendInt, hn, hneg]

theorem appendInt_four (x : Int) (h0 : 0 ≤ x) (h1 : x < 10000) :
    (appendInt x 4).data =
      [digitChar (x.toNat / 1000), digitChar (x.toNat / 100), digitChar (x.toNat / 10),
       digitChar x.toNat] := by
  obtain ⟨n, rfl⟩ := Int.eq_ofNat_of_zero_le h0
  have hn : n < 10000 := by omega
  have hneg : ¬ ((n : Int) < 0) := by omega
  simp [appendInt, hn, hneg]

theorem getnum_appendInt (x : Int) (h0 : 0 ≤ x) (h1 : x < 100) (rest : List Char) (fixed : Bool) :
    getnum ((appendInt x 2).data ++ rest) fixed = some (x, rest) := by
  rw [appendInt_two x h0 h1]
  obtain ⟨n, rfl⟩ := Int.eq_ofNat_of_zero_le h0
  obtain ⟨a1, a2⟩ := digitChar_spec (n / 10)
  obtain ⟨b1, b2⟩ := digitChar_spec n
  simp only [Int.toNat_ofNat, List.cons_append, List.nil_append, getnum, a1, a2, b1, b2, if_true]
  congr 2
  omega

theorem getYear_appendInt (x : Int) (h0 : 0 ≤ x) (h1 : x < 10000) (rest : List Char) :
    getYear ((appendInt x 4).data ++ rest) = some (x, rest) := by
  rw [appendInt_four x h0 h1]
  obtain ⟨n, rfl⟩ := Int.eq_ofNat_of_zero_le h0
  obtain ⟨a1, a2⟩ := digitChar_spec (n / 1000)
  obtain ⟨b1, b2⟩ := digitChar_spec (n / 100)
  obtain ⟨c1, c2⟩ := digitChar_spec (n / 10)
  obtain ⟨d1, d2⟩ := digitChar_spec n
  simp only [Int.toNat_ofNat, List.cons_append, List.nil_append, getYear, a1, a2, b1, b2, c1, c2,
    d1, d2, and_self, if_true]
  congr 2
  omega

/-- Reading back what layout `2006-01-02 15:04:05` prints for fields that are
in range and a year of four digits. -/
theorem parseDateTime_layoutDateTime (c : Civil) (hy0 : 0 ≤ c.year) (hy1 : c.year ≤ 9999)
    (hm0 : 1 ≤ c.month) (hm1 : c.month ≤ 12) (hd0 : 1 ≤ c.day)
    (hd1 : c.day ≤ daysIn c.month c.year) (hh0 : 0 ≤ c.hour) (hh1 : c.hour < 24)
    (hmi0 : 0 ≤ c.minute) (hmi1 : c.minute < 60) (hs0 : 0 ≤ c.second) (hs1 : c.second < 60) :
    parseDateTime (layoutDateTime c) = some c := by
  have hday : c.day < 100 := by
    obtain ⟨v0, v1, v2, v3, v4, v5, v6, v7, v8, v9, v10, v11, v12⟩ := daysBefore_values
    have hm : c.month = 1 ∨ c.month = 2 ∨ c.month = 3 ∨ c.month = 4 ∨ c.month = 5 ∨
        c.month = 6 ∨ c.month = 7 ∨ c.month = 8 ∨ c.month = 9 ∨ c.month = 10 ∨
        c.month = 11 ∨ c.month = 12 := by omega
    unfold daysIn at hd1
    rcases hm with h | h | h | h | h | h | h | h | h | h | h | h <;> rw [h] at hd1 <;>
      simp only [Int.reduceSub, v0, v1, v2, v3, v4, v5, v6, v7, v8, v9, v10, v11, v12] at hd1 <;>
      split_ifs at hd1 <;> omega
  have hdata : (layoutDateTime c).data =
      (appendInt c.year 4).data ++ ('-' :: ((appendInt c.month 2).data ++ ('-' ::
        ((appendInt c.day 2).data ++ (' ' :: ((appendInt c.hour 2).data ++ (':' ::
          ((appendInt c.minute 2).data ++ (':' :: ((appendInt c.second 2).data ++ [])))))))))) := by
    simp [layoutDateTime, String.data_append]
  unfold parseDateTime
  rw [hdata, getYear_appendInt _ hy0 (by omega)]
  simp only [skipChar, if_true]
  rw [getnum_appendInt _ (by omega) (by omega)]
  simp only [skipChar, if_true]
  rw [getnum_appendInt _ (by omega) hday]
  simp only [skipChar, if_true]
  rw [getnum_appendInt _ hh0 (by omega)]
  simp only [skipChar, if_true]
  rw [getnum_appendInt _ hmi0 (by omega)]
  simp only [skipChar, if_true]
  rw [getnum_appendInt _ hs0 (by omega)]
  simp only [true_and]
  rw [if_pos ⟨hm0, hm1, hh1, hmi1, hs1, hd0, hd1⟩]

/-! ## Formatting an event time and reading it back -/

theorem tdiv_thousand (T : Int) :
    ((0 ≤ T ∨ T % 1000 = 0) → T.tdiv 1000 = T / 1000) ∧
    ((T < 0 ∧ T % 1000 ≠ 0) → T.tdiv 1000 = T / 1000 + 1) := by
  rcases le_or_lt 0 T with h0 | h0
  · have h := Int.tdiv_eq_ediv h0 (show (0 : Int) ≤ 1000 by norm_num)
    exact ⟨fun _ => h, fun hneg => by omega⟩
  · have h1 : T = -(-T) := by omega
    have h2 : T.tdiv 1000 = -((-T) / 1000) := by
      rw [← Int.tdiv_eq_ediv (by omega) (show (0 : Int) ≤ 1000 by norm_num), ← Int.neg_tdiv, ← h1]
    constructor
    · intro h
      rw [h2]; omega
    · intro h
      rw [h2]; omega

theorem parseInZone_layout (off sec : Int) (h0 : -62167219200 ≤ sec + off)
    (h1 : sec + off < 253402300800) :
    parseInZone off (layoutDateTime (localCivil (fixedZone off) sec)) = some sec := by
  obtain ⟨hw, m0, m1, d0, d1, hh0, hh1, mi0, mi1, s0, s1⟩ := civilOfWall_spec (sec + off)
  obtain ⟨y0, y1⟩ := year_range (sec + off) h0 h1
  simp only [parseInZone, localCivil, fixedZone]
  rw [parseDateTime_layoutDateTime _ y0 y1 m0 m1 d0 d1 hh0 hh1 mi0 mi1 s0 s1]
  simp only [Option.map_some', hw]
  congr 1
  omega

/-- C6, as stated, fails: the timestamp 253402300800000 (the first millisecond
of the year 10000 in UTC) is formatted with a five-digit year, which the layout
does not read back. -/
theorem roundtrip_fails_in_year_10000 :
    readableTimestamp utc 253402300800000 = "10000-01-01 00:00:00" ∧
    parseInZone 0 (readableTimestamp utc 253402300800000) ≠ some (253402300800000 / 1000) := by
  constructor <;> decide

/-- C6, amended: for every epoch-millisecond timestamp `T` whose second
`T/1000` (the Go quotient, truncated toward zero) lies in the years 0000 to
9999 of a zone with fixed offset `off`, formatting `T` as `queryDatabase` does
and parsing the text back in the same zone yields the instant of second
`T/1000`.  That is `T` rounded down to the whole second when `T` is not
negative or is a multiple of 1000, and one second later otherwise. -/
theorem readableTimestamp_roundtrip (off T : Int) (h0 : -62167219200 ≤ T.tdiv 1000 + off)
    (h1 : T.tdiv 1000 + off < 253402300800) :
    parseInZone off (readableTimestamp (fixedZone off) T) = some (T.tdiv 1000) ∧
    ((0 ≤ T ∨ T % 1000 = 0) → T.tdiv 1000 = T / 1000) ∧
    ((T < 0 ∧ T % 1000 ≠ 0) → T.tdiv 1000 = T / 1000 + 1) :=
  ⟨parseInZone_layout off (T.tdiv 1000) h0 h1, (tdiv_thousand T).1, (tdiv_thousand T).2⟩

/-- C6, amended, at `T = 1700000000999` one hour east of UTC: the text
`2023-11-14 23:13:20` reads back as second 1700000000. -/
theorem readableTimestamp_roundtrip_witness :
    readableTimestamp (fixedZone 3600) 1700000000999 = "2023-11-14 23:13:20" ∧
    parseInZone 3600 (readableTimestamp (fixedZone 3600) 1700000000999) = some 1700000000 :=
  ⟨by decide, (readableTimestamp_roundtrip 3600 1700000000999 (by decide) (by decide)).1⟩

/-! ## The name of the extraction folder -/

theorem digitChar_inj {a b : Nat} (h : digitChar a = digitChar b) : a % 10 = b % 10 := by
  have h1 := congrArg digitValue h
  rw [(digitChar_spec a).2, (digitChar_spec b).2] at h1
  exact_mod_cast h1

theorem appendInt_two_inj {x y : Int} (hx0 : 0 ≤ x) (hx1 : x < 100) (hy0 : 0 ≤ y) (hy1 : y < 100)
    (h : (appendInt x 2).data = (appendInt y 2).data) : x = y := by
  rw [appendInt_two x hx0 hx1, appendInt_two y hy0 hy1] at h
  simp only [List.cons.injEq, and_true] at h
  have h1 := digitChar_inj h.1
  have h2 := digitChar_inj h.2
  omega

theorem appendInt_four_inj {x y : Int} (hx0 : 0 ≤ x) (hx1 : x < 10000) (hy0 : 0 ≤ y)
    (hy1 : y < 10000) (h : (appendInt x 4).data = (appendInt y 4).data) : x = y := by
  rw [appendInt_four x hx0 hx1, appendInt_four y hy0 hy1] at h
  simp only [List.cons.injEq, and_true] at h
  have h1 := digitChar_inj h.1
  have h2 := digitChar_inj h.2.1
  have h3 := digitChar_inj h.2.2.1
  have h4 := digitChar_inj h.2.2.2
  omega

theorem length_appendInt_two (x : Int) (h0 : 0 ≤ x) (h1 : x < 100) :
    (appendInt x 2).data.length = 2 := by
  rw [appendInt_two x h0 h1]; rfl

theorem length_appendInt_four (x : Int) (h0 : 0 ≤ x) (h1 : x < 10000) :
    (appendInt x 4).data.length = 4 := by
  rw [appendInt_four x h0 h1]; rfl

theorem layoutFolder_data (c : Civil) :
    (layoutFolder c).data =
      (appendInt c.year 4).data ++ ('-' :: ((appendInt c.month 2).data ++ ('-' ::
        ((appendInt c.day 2).data ++ ('-' :: ((appendInt c.hour 2).data ++ ('-' ::
          (appendInt c.minute 2).data))))))) := by
  simp [layoutFolder, String.data_append]

/-- Two wall clocks of the years 0000 to 9999 are printed alike by layout
`2006-01-02-15-04` exactly when they lie in the same minute. -/
theorem layoutFolder_eq_iff (w1 w2 : Int) (a0 : -62167219200 ≤ w1) (a1 : w1 < 253402300800)
    (b0 : -62167219200 ≤ w2) (b1 : w2 < 253402300800) :
    layoutFolder (civilOfWall w1) = layoutFolder (civilOfWall w2) ↔ w1 / 60 = w2 / 60 := by
  constructor
  · intro h
    obtain ⟨hw1, m0, m1, d0, d1, hh0, hh1, mi0, mi1, s0, s1⟩ := civilOfWall_spec w1
    obtain ⟨hw2, m0', m1', d0', d1', hh0', hh1', mi0', mi1', s0', s1'⟩ := civilOfWall_spec w2
    obtain ⟨y0, y1⟩ := year_range w1 a0 a1
    obtain ⟨y0', y1'⟩ := year_range w2 b0 b1
    have hday : ∀ c : Civil, 1 ≤ c.month → c.month ≤ 12 → c.day ≤ daysIn c.month c.year →
        c.day < 100 := by
      intro c hm0 hm1 hd1
      obtain ⟨v0, v1, v2, v3, v4, v5, v6, v7, v8, v9, v10, v11, v12⟩ := daysBefore_values
      have hm : c.month = 1 ∨ c.month = 2 ∨ c.month = 3 ∨ c.month = 4 ∨ c.month = 5 ∨
          c.month = 6 ∨ c.month = 7 ∨ c.month = 8 ∨ c.month = 9 ∨ c.month = 10 ∨
          c.month = 11 ∨ c.month = 12 := by omega
      unfold daysIn at hd1
      rcases hm with h | h | h | h | h | h | h | h | h | h | h | h <;> rw [h] at hd1 <;>
        simp only [Int.reduceSub, v0, v1, v2, v3, v4, v5, v6, v7, v8, v9, v10, v11, v12] at hd1 <;>
        split_ifs at hd1 <;> omega
    have hd100 := hday _ m0 m1 d1
    have hd100' := hday _ m0' m1' d1'
    have hdata := congrArg String.data h
    rw [layoutFolder_data, layoutFolder_data] at hdata
    have e1 := List.append_inj hdata (by
      rw [length_appendInt_four _ y0 (by omega), length_appendInt_four _ y0' (by omega)])
    have hyear := appendInt_four_inj y0 (by omega) y0' (by omega) e1.1
    have e2 := List.append_inj (List.cons.inj e1.2).2 (by
      rw [length_appendInt_two _ (by omega) (by omega), length_appendInt_two _ (by omega) (by omega)])
    have hmonth := appendInt_two_inj (by omega) (by omega) (by omega) (by omega) e2.1
    have e3 := List.append_inj (List.cons.inj e2.2).2 (by
      rw [length_appendInt_two _ (by omega) hd100, length_appendInt_two _ (by omega) hd100'])
    have hdy := appendInt_two_inj (by omega) hd100 (by omega) hd100' e3.1
    have e4 := List.append_inj (List.cons.inj e3.2).2 (by
      rw [length_appendInt_two _ hh0 (by omega), length_appendInt_two _ hh0' (by omega)])
    have hhour := appendInt_two_inj hh0 (by omega) hh0' (by omega) e4.1
    have hminute := appendInt_two_inj mi0 (by omega) mi0' (by omega) (List.cons.inj e4.2).2
    simp only [wallOfCivil] at hw1 hw2
    rw [hyear, hmonth, hdy, hhour, hminute] at hw1
    omega
  · intro h
    have e1 : w1 / 86400 = w2 / 86400 := by omega
    have e2 : w1 % 86400 / 3600 = w2 % 86400 / 3600 := by omega
    have e3 : w1 % 86400 % 3600 / 60 = w2 % 86400 % 3600 / 60 := by omega
    simp only [layoutFolder, civilOfWall, e1, e2, e3]

/-- C10, as stated, fails: the runs started at the distinct instants
1700000000 and 1700000001 build the same folder name, and the second run is
handed the folder of the first (`os.MkdirAll` succeeds on it). -/
theorem folder_reused_within_minute :
    (1700000000 : Int) ≠ 1700000001 ∧
    extractionFolderName utc 1700000000 = extractionFolderName utc 1700000001 ∧
    (setupExtractionFolder (memOS sampleDecode utc) sampleWorld).1 =
      .ok ["2023-11-14-22-13_Recall_Extraction"] ∧
    (setupExtractionFolder (memOS sampleDecode utc) secondRunWorld).1 =
      .ok ["2023-11-14-22-13_Recall_Extraction"] := by
  refine ⟨by decide, by decide, by decide, by decide⟩

/-- C10, amended: the folder name is the local start time cut to the minute.
In a zone of fixed offset and within the years 0000 to 9999, two runs get the
same folder name exactly when their start times fall in the same minute; runs
started in different minutes never share a name. -/
theorem extractionFolderName_eq_iff (off t1 t2 : Int)
    (a0 : -62167219200 ≤ t1 + off) (a1 : t1 + off < 253402300800)
    (b0 : -62167219200 ≤ t2 + off) (b1 : t2 + off < 253402300800) :
    extractionFolderName (fixedZone off) t1 = extractionFolderName (fixedZone off) t2 ↔
      (t1 + off) / 60 = (t2 + off) / 60 := by
  rw [← layoutFolder_eq_iff (t1 + off) (t2 + off) a0 a1 b0 b1]
  simp only [extractionFolderName, localCivil, fixedZone]
  constructor
  · exact append_right_cancel
  · intro h; rw [h]

/-- C10, amended, at 22:13:59 and 22:14:00 UTC of 2023-11-14: the minutes
differ, and so do the folder names. -/
theorem extractionFolderName_eq_iff_witness :
    extractionFolderName (fixedZone 0) 1700000039 ≠ extractionFolderName (fixedZone 0) 1700000040 :=
  fun h => absurd
    ((extractionFolderName_eq_iff 0 1700000039 1700000040 (by decide) (by decide) (by decide)
      (by decide)).mp h) (by decide)

/-! ## Copying a tree (`copyDir`) -/

theorem Node.same_refl (n : Node) : Node.same n n := by
  cases n <;> simp [Node.same]

theorem Extends.refl (fs0 : FS) (src dst : Path) (fs : FS) : Extends fs0 src dst fs fs :=
  ⟨fun _ _ => rfl, fun _ _ h => Or.inl h, fun _ h => h⟩

theorem Extends.trans {fs0 : FS} {src dst : Path} {fs1 fs2 fs3 : FS}
    (h12 : Extends fs0 src dst fs1 fs2) (h23 : Extends fs0 src dst fs2 fs3) :
    Extends fs0 src dst fs1 fs3 := by
  refine ⟨fun q hq => by rw [h23.source q hq, h12.source q hq], ?_, fun rel h => h23.kept rel (h12.kept rel h)⟩
  intro rel n' h
  rcases h23.target rel n' h with h2 | h2
  · exact h12.target rel n' h2
  · exact Or.inr h2

/-- A path under `src` is not a prefix of a path under `dst` when neither root
is a prefix of the other. -/
theorem not_under_both {src dst q : Path} (rel : Path) (h1 : ¬ src <+: dst) (h2 : ¬ dst <+: src)
    (hq : src <+: q) : ¬ q <+: dst ++ rel := by
  intro hqd
  have hs : src <+: dst ++ rel := hq.trans hqd
  rcases List.prefix_or_prefix_of_prefix hs ( List.prefix_append dst rel) with h | h
  · exact h1 h
  · exact h2 h

theorem trimPrefix_append (src rel : Path) : trimPrefix (src ++ rel) src = rel := by
  have h : src.isPrefixOf (src ++ rel) = true :=
    List.isPrefixOf_iff_prefix.mpr ( List.prefix_append src rel)
  simp [trimPrefix, h]

theorem wellFormed_chain (fs : FS) (hwf : WellFormed fs) (p : Path) :
    ∀ (r2 r1 : Path), r2 ≠ [] → fs.lookup (p ++ r1 ++ r2) ≠ none →
      ∃ mode, fs.lookup (p ++ r1) = some (.dir mode) := by
  intro r2
  induction r2 using List.reverseRecOn with
  | nil => intro r1 h; exact absurd rfl h
  | append_singleton r2 c ih =>
    intro r1 _ hex
    have h1 : p ++ r1 ++ (r2 ++ [c]) = (p ++ r1 ++ r2) ++ [c] := by simp
    rw [h1] at hex
    obtain ⟨mode, hm⟩ := hwf _ _ hex
    by_cases hr2 : r2 = []
    · subst hr2
      exact ⟨mode, by simpa using hm⟩
    · exact ih r1 hr2 (by rw [hm]; simp)

theorem mkdirAllRev_ok (mode : Nat) (rp : List String) (fs fs' : FS)
    (h : FS.mkdirAllRev mode rp fs = (none, fs')) :
    (∃ m, fs'.lookup rp.reverse = some (.dir m)) ∧
    (∀ q, fs'.lookup q = fs.lookup q ∨
      (fs.lookup q = none ∧ fs'.lookup q = some (.dir mode) ∧ q <+: rp.reverse)) := by
  induction rp generalizing fs' with
  | nil =>
    simp only [FS.mkdirAllRev] at h
    cases hl : fs.lookup [] with
    | none =>
      simp only [hl, Prod.mk.injEq, true_and] at h
      subst h
      refine ⟨⟨mode, by simp [FS.lookup_set]⟩, ?_⟩
      intro q
      by_cases hq : q = []
      · subst hq
        exact Or.inr ⟨hl, by simp [FS.lookup_set], List.prefix_refl _⟩
      · exact Or.inl (by simp [FS.lookup_set, hq])
    | some n =>
      cases n with
      | file d => simp [hl] at h
      | dir m =>
        simp only [hl, Prod.mk.injEq, true_and] at h
        subst h
        exact ⟨⟨m, by simpa using hl⟩, fun q => Or.inl rfl⟩
  | cons name parent ih =>
    unfold FS.mkdirAllRev at h
    cases hl : fs.lookup (name :: parent).reverse with
    | some n =>
      rw [hl] at h
      cases n with
      | file d => simp at h
      | dir m =>
        simp only [Prod.mk.injEq, true_and] at h
        subst h
        exact ⟨⟨m, hl⟩, fun q => Or.inl rfl⟩
    | none =>
      rw [hl] at h
      simp only at h
      rcases hrec : FS.mkdirAllRev mode parent fs with ⟨e, fs1⟩
      rw [hrec] at h
      cases e with
      | some err => simp at h
      | none =>
        simp only [Prod.mk.injEq, true_and] at h
        subst h
        obtain ⟨-, ih2⟩ := ih fs1 hrec
        refine ⟨⟨mode, by simp [FS.lookup_set]⟩, ?_⟩
        intro q
        by_cases hq : q = (name :: parent).reverse
        · subst hq
          exact Or.inr ⟨hl, by simp [FS.lookup_set], List.prefix_refl _⟩
        · rw [FS.lookup_set, if_neg hq]
          rcases ih2 q with h1 | ⟨h1, h2, h3⟩
          · exact Or.inl h1
          · refine Or.inr ⟨h1, h2, ?_⟩
            rw [List.reverse_cons]
            exact h3.trans ( List.prefix_append _ _)

theorem copyFile_memOS (decode : String → Except String (List Row)) (offset : Int → Int)
    (sp p : Path) (w w2 : World) (hne : sp ≠ p)
    (h : copyFile (memOS decode offset) sp p w = (none, w2)) :
    ∃ d, w.fs.lookup sp = some (.file d) ∧
      ∀ q, w2.fs.lookup q = if q = p then some (.file d) else w.fs.lookup q := by
  unfold copyFile at h
  simp only [memOS] at h
  cases hopen : w.fs.openFile sp with
  | some err => simp [hopen] at h
  | none =>
    simp only [hopen] at h
    cases hc : (w.fs.create p).1 with
    | some err => simp [hc] at h
    | none =>
      have hset := FS.create_ok _ _ hc
      simp only [hc, hset] at h
      have hsp : (w.fs.set p (.file "")).lookup sp = w.fs.lookup sp := by
        rw [FS.lookup_set, if_neg hne]
      have hp : (w.fs.set p (.file "")).lookup p = some (.file "") := FS.lookup_set_self _ _ _
      unfold FS.copy at h
      simp only [hsp, hp] at h
      cases hl : w.fs.lookup sp with
      | none => simp [hl] at h
      | some n =>
        cases n with
        | dir m => simp [hl] at h
        | file d =>
          simp only [hl, Prod.mk.injEq, true_and] at h
          refine ⟨d, rfl, ?_⟩
          intro q
          rw [← h]
          simp only [FS.lookup_set]
          by_cases hq : q = p <;> simp [hq]

theorem stat_ok {fs : FS} {p : Path} {info : FileInfo} (h : fs.stat p = .ok info) :
    (info.isDir = false → ∃ d, fs.lookup p = some (.file d)) ∧
    (info.isDir = true → fs.lookup p = some (.dir info.mode)) := by
  unfold FS.stat at h
  cases hl : fs.lookup p with
  | none => simp [hl] at h
  | some n =>
    simp only [hl, Except.ok.injEq] at h
    subst h
    cases n <;> simp [FS.infoOf]

theorem append_left_ne_of_not_isPrefix {src dst : Path} (rel : Path) (h1 : ¬ src <+: dst) :
    src ++ rel ≠ dst ++ rel := by
  intro h
  have := List.append_cancel_right h
  exact h1 (this ▸ List.prefix_refl _)

/-- The walk function of `copyDir` on a file of the source tree. -/
theorem copyDirFn_file (decode : String → Except String (List Row)) (offset : Int → Int)
    (fs0 : FS) (src dst rel : Path) (h1 : ¬ src <+: dst) (h2 : ¬ dst <+: src)
    (hwf : WellFormed fs0) (info : FileInfo) (hinfo : info.isDir = false) (w w2 : World)
    (hsrc : ∀ q, src <+: q → w.fs.lookup q = fs0.lookup q)
    (hrun : copyDirFn (memOS decode offset) src dst (src ++ rel) info none w = (none, w2)) :
    Extends fs0 src dst w.fs w2.fs ∧ ∀ rel', rel <+: rel' → Copied fs0 src dst w2.fs rel' := by
  simp only [copyDirFn, trimPrefix_append, hinfo, Bool.false_eq_true, if_false] at hrun
  obtain ⟨d, hd, hlook⟩ := copyFile_memOS decode offset _ _ w w2
    (append_left_ne_of_not_isPrefix rel h1) hrun
  have hd0 : fs0.lookup (src ++ rel) = some (.file d) := by
    rw [← hsrc _ ( List.prefix_append _ _)]; exact hd
  have hcop : Copied fs0 src dst w2.fs rel := by
    intro n hn
    rw [hd0] at hn
    injection hn with hn
    subst hn
    exact ⟨.file d, by rw [hlook]; simp, Node.same_refl _⟩
  refine ⟨⟨?_, ?_, ?_⟩, ?_⟩
  · intro q hq
    have hne : q ≠ dst ++ rel := by
      intro h
      exact not_under_both rel h1 h2 hq (h ▸ List.prefix_refl _)
    rw [hlook, if_neg hne]
  · intro rel'' n' hn'
    rw [hlook] at hn'
    by_cases hr : dst ++ rel'' = dst ++ rel
    · have hrel : rel'' = rel := List.append_cancel_left hr
      subst hrel
      simp only [if_true, Option.some.injEq] at hn'
      subst hn'
      exact Or.inr ⟨.file d, hd0, Node.same_refl _⟩
    · rw [if_neg hr] at hn'
      exact Or.inl hn'
  · intro rel'' hc
    by_cases hr : rel'' = rel
    · subst hr; exact hcop
    · intro n hn
      obtain ⟨n', hn', hs⟩ := hc n hn
      have hne : dst ++ rel'' ≠ dst ++ rel := fun h => hr (List.append_cancel_left h)
      exact ⟨n', by rw [hlook, if_neg hne]; exact hn', hs⟩
  · intro rel' hpre
    obtain ⟨t, rfl⟩ := hpre
    by_cases ht : t = []
    · subst ht
      simpa using hcop
    · intro n hn
      have hex : fs0.lookup (src ++ rel ++ t) ≠ none := by
        rw [List.append_assoc, hn]; simp
      obtain ⟨mode, hm⟩ := wellFormed_chain fs0 hwf src t rel ht hex
      rw [hd0] at hm
      simp at hm

/-- The walk function of `copyDir` on a directory of the source tree. -/
theorem copyDirFn_dir (decode : String → Except String (List Row)) (offset : Int → Int)
    (fs0 : FS) (src dst rel : Path) (h1 : ¬ src <+: dst) (h2 : ¬ dst <+: src)
    (hwf : WellFormed fs0) (info : FileInfo) (hinfo : info.isDir = true) (w w2 : World)
    (hnode : ∃ m, fs0.lookup (src ++ rel) = some (.dir m))
    (hrun : copyDirFn (memOS decode offset) src dst (src ++ rel) info none w = (none, w2)) :
    Extends fs0 src dst w.fs w2.fs ∧ Copied fs0 src dst w2.fs rel := by
  simp only [copyDirFn, trimPrefix_append, hinfo, if_true, memOS, FS.mkdirAll, Prod.mk.injEq] at hrun
  obtain ⟨herr, hw2⟩ := hrun
  have hfs : w2.fs = (FS.mkdirAllRev info.mode (dst ++ rel).reverse w.fs).2 := by rw [← hw2]
  have hpair : FS.mkdirAllRev info.mode (dst ++ rel).reverse w.fs = (none, w2.fs) := by
    rw [hfs, ← herr]
  obtain ⟨⟨m', hm'⟩, hall⟩ := mkdirAllRev_ok _ _ _ _ hpair
  rw [List.reverse_reverse] at hm' hall
  obtain ⟨m, hm⟩ := hnode
  refine ⟨⟨?_, ?_, ?_⟩, ?_⟩
  · intro q hq
    rcases hall q with h | ⟨-, -, h⟩
    · exact h
    · exact absurd h (not_under_both rel h1 h2 hq)
  · intro rel'' n' hn'
    rcases hall (dst ++ rel'') with h | ⟨-, hdir, hpre⟩
    · exact Or.inl (by rw [← h]; exact hn')
    · have hrel : rel'' <+: rel := ( List.prefix_append_right_inj dst).mp hpre
      obtain ⟨t, rfl⟩ := hrel
      rw [hdir] at hn'
      injection hn' with hn'
      subst hn'
      by_cases ht : t = []
      · subst ht
        exact Or.inr ⟨.dir m, by simpa using hm, by simp [Node.same]⟩
      · have hex : fs0.lookup (src ++ rel'' ++ t) ≠ none := by
          rw [List.append_assoc, hm]; simp
        obtain ⟨mode, hmode⟩ := wellFormed_chain fs0 hwf src t rel'' ht hex
        exact Or.inr ⟨.dir mode, hmode, by simp [Node.same]⟩
  · intro rel'' hc n hn
    obtain ⟨n', hn', hs⟩ := hc n hn
    rcases hall (dst ++ rel'') with h | ⟨h, -, -⟩
    · exact ⟨n', by rw [h]; exact hn', hs⟩
    · rw [h] at hn'; simp at hn'
  · intro n hn
    rw [hm] at hn
    injection hn with hn
    subst hn
    exact ⟨.dir m', hm', by simp [Node.same]⟩

/-- The loop of `filepath.walk` over the names of a directory of the source
tree, given what the recursive call does on each entry. -/
theorem walkNames_copy (decode : String → Except String (List Row)) (offset : Int → Int)
    (fs0 : FS) (src dst rel : Path)
    (descend : Path → FileInfo → World → Option (Option String × World))
    (hdesc : ∀ c info (w w2 : World), (∀ q, src <+: q → w.fs.lookup q = fs0.lookup q) →
      w.fs.stat (src ++ (rel ++ [c])) = .ok info →
      descend (src ++ (rel ++ [c])) info w = some (none, w2) →
      Extends fs0 src dst w.fs w2.fs ∧ ∀ rel', (rel ++ [c]) <+: rel' → Copied fs0 src dst w2.fs rel') :
    ∀ (names : List String) (w w2 : World), (∀ q, src <+: q → w.fs.lookup q = fs0.lookup q) →
      walkNames (memOS decode offset) (copyDirFn (memOS decode offset) src dst) descend
        (src ++ rel) names w = some (none, w2) →
      Extends fs0 src dst w.fs w2.fs ∧
      ∀ c ∈ names, ∀ rel', (rel ++ [c]) <+: rel' → Copied fs0 src dst w2.fs rel' := by
  intro names
  induction names with
  | nil =>
    intro w w2 _ hrun
    simp only [walkNames, Option.some.injEq, Prod.mk.injEq, true_and] at hrun
    subst hrun
    exact ⟨Extends.refl _ _ _ _, by simp⟩
  | cons c cs ih =>
    intro w w2 hinv hrun
    simp only [walkNames, joinPath, List.append_assoc] at hrun
    have hl : (memOS decode offset).lstat (src ++ (rel ++ [c])) w = w.fs.stat (src ++ (rel ++ [c])) := rfl
    rw [hl] at hrun
    cases hs : w.fs.stat (src ++ (rel ++ [c])) with
    | error err =>
      simp [hs, copyDirFn] at hrun
    | ok fileInfo =>
      simp only [hs] at hrun
      cases hd : descend (src ++ (rel ++ [c])) fileInfo w with
      | none => simp [hd] at hrun
      | some r =>
        obtain ⟨e, wb⟩ := r
        cases e with
        | some err => simp [hd] at hrun
        | none =>
          simp only [hd] at hrun
          obtain ⟨hext1, hc1⟩ := hdesc c fileInfo w wb hinv hs hd
          have hinvb : ∀ q, src <+: q → wb.fs.lookup q = fs0.lookup q := by
            intro q hq
            rw [hext1.source q hq, hinv q hq]
          obtain ⟨hext2, hc2⟩ := ih wb w2 hinvb hrun
          refine ⟨hext1.trans hext2, ?_⟩
          intro c' hc' rel' hpre
          rcases List.mem_cons.mp hc' with h | h
          · subst h
            exact hext2.kept rel' (hc1 rel' hpre)
          · exact hc2 c' h rel' hpre

/-- Go `filepath.walk` with the walk function of `copyDir`, started on an
entry of the source tree: when it ends without error, the whole subtree of the
entry is copied and the source tree is as it was. -/
theorem walk_copy (decode : String → Except String (List Row)) (offset : Int → Int)
    (fs0 : FS) (src dst : Path) (h1 : ¬ src <+: dst) (h2 : ¬ dst <+: src) (hwf : WellFormed fs0) :
    ∀ (fuel : Nat) (rel : Path) (info : FileInfo) (w w2 : World),
      (∀ q, src <+: q → w.fs.lookup q = fs0.lookup q) →
      w.fs.stat (src ++ rel) = .ok info →
      walk (memOS decode offset) (copyDirFn (memOS decode offset) src dst) fuel (src ++ rel) info w =
        some (none, w2) →
      Extends fs0 src dst w.fs w2.fs ∧ ∀ rel', rel <+: rel' → Copied fs0 src dst w2.fs rel' := by
  intro fuel
  induction fuel with
  | zero =>
    intro rel info w w2 _ _ hrun
    simp [walk] at hrun
  | succ fuel ih =>
    intro rel info w w2 hinv hstat hrun
    rw [walk] at hrun
    by_cases hdir : info.isDir = true
    · simp only [hdir, Bool.not_true, Bool.false_eq_true, if_false] at hrun
      have hnode0 : w.fs.lookup (src ++ rel) = some (.dir info.mode) := (stat_ok hstat).2 hdir
      have hnode : fs0.lookup (src ++ rel) = some (.dir info.mode) := by
        rw [← hinv _ ( List.prefix_append _ _)]; exact hnode0
      have hrd : (memOS decode offset).readDir (src ++ rel) w = w.fs.readDir (src ++ rel) := rfl
      rw [hrd] at hrun
      cases hlist : w.fs.readDir (src ++ rel) with
      | error err => simp [hlist, copyDirFn] at hrun
      | ok files =>
        simp only [hlist] at hrun
        rcases hfn : copyDirFn (memOS decode offset) src dst (src ++ rel) info none w with ⟨e, wa⟩
        rw [hfn] at hrun
        cases e with
        | some err => simp at hrun
        | none =>
          simp only at hrun
          obtain ⟨hext1, hcop⟩ := copyDirFn_dir decode offset fs0 src dst rel h1 h2 hwf info hdir
            w wa ⟨_, hnode⟩ hfn
          have hinva : ∀ q, src <+: q → wa.fs.lookup q = fs0.lookup q := by
            intro q hq
            rw [hext1.source q hq, hinv q hq]
          obtain ⟨hext2, hsub⟩ := walkNames_copy decode offset fs0 src dst rel
            (walk (memOS decode offset) (copyDirFn (memOS decode offset) src dst) fuel)
            (fun c info' w' w2' hi hs hr => ih (rel ++ [c]) info' w' w2' hi hs hr)
            (files.map FileInfo.name) wa w2 hinva hrun
          refine ⟨hext1.trans hext2, ?_⟩
          intro rel' hpre
          obtain ⟨t, rfl⟩ := hpre
          cases t with
          | nil => simpa using hext2.kept rel hcop
          | cons c t' =>
            intro n hn
            have hchild : fs0.lookup (src ++ rel ++ [c]) ≠ none := by
              by_cases ht : t' = []
              · subst ht
                rw [List.append_assoc, hn]; simp
              · have hex : fs0.lookup (src ++ (rel ++ [c]) ++ t') ≠ none := by
                  have e : src ++ (rel ++ [c]) ++ t' = src ++ (rel ++ c :: t') := by simp
                  rw [e, hn]; simp
                obtain ⟨mode, hm⟩ := wellFormed_chain fs0 hwf src t' (rel ++ [c]) ht hex
                rw [List.append_assoc, hm]; simp
            have hmem : c ∈ files.map FileInfo.name := by
              rw [mem_names_readDir _ _ _ hlist]
              rw [hinv _ (( List.prefix_append src rel).trans ( List.prefix_append _ _))]
              exact hchild
            exact hsub c hmem (rel ++ c :: t') ⟨t', by simp⟩ n hn
    · have hdir2 : info.isDir = false := by simpa using hdir
      simp only [hdir2, Bool.not_false, if_true, Option.some.injEq] at hrun
      exact copyDirFn_file decode offset fs0 src dst rel h1 h2 hwf info hdir2 w w2 hinv hrun

/-- The loop of `filepath.walk` returns when the recursive call returns on
every entry. -/
theorem walkNames_returns (decode : String → Except String (List Row)) (offset : Int → Int)
    (fs0 : FS) (src dst rel : Path)
    (descend : Path → FileInfo → World → Option (Option String × World))
    (hdesc : ∀ c info (w : World), (∀ q, src <+: q → w.fs.lookup q = fs0.lookup q) →
      w.fs.stat (src ++ (rel ++ [c])) = .ok info →
      ∃ r, descend (src ++ (rel ++ [c])) info w = some r ∧
        ∀ w2, r = (none, w2) → Extends fs0 src dst w.fs w2.fs) :
    ∀ (names : List String) (w : World), (∀ q, src <+: q → w.fs.lookup q = fs0.lookup q) →
      ∃ r, walkNames (memOS decode offset) (copyDirFn (memOS decode offset) src dst) descend
        (src ++ rel) names w = some r := by
  intro names
  induction names with
  | nil => intro w _; exact ⟨_, rfl⟩
  | cons c cs ih =>
    intro w hinv
    simp only [walkNames, joinPath, List.append_assoc]
    have hl : (memOS decode offset).lstat (src ++ (rel ++ [c])) w = w.fs.stat (src ++ (rel ++ [c])) := rfl
    rw [hl]
    cases hs : w.fs.stat (src ++ (rel ++ [c])) with
    | error err => exact ⟨(some err, w), by simp [copyDirFn]⟩
    | ok fileInfo =>
      obtain ⟨r, hr, hext⟩ := hdesc c fileInfo w hinv hs
      obtain ⟨e, wb⟩ := r
      simp only [hr]
      cases e with
      | some err => exact ⟨_, rfl⟩
      | none =>
        have hext1 := hext wb rfl
        exact ih wb (fun q hq => by rw [hext1.source q hq, hinv q hq])

/-- Go `filepath.walk` with the walk function of `copyDir` returns, with or
without an error, when `fuel` exceeds the depth of the source tree below the
entry it starts on. -/
theorem walk_returns (decode : String → Except String (List Row)) (offset : Int → Int)
    (fs0 : FS) (src dst : Path) (h1 : ¬ src <+: dst) (h2 : ¬ dst <+: src) (hwf : WellFormed fs0) :
    ∀ (fuel : Nat) (rel : Path) (info : FileInfo) (w : World),
      (∀ q, src <+: q → w.fs.lookup q = fs0.lookup q) →
      w.fs.stat (src ++ rel) = .ok info →
      (∀ rel', fs0.lookup (src ++ rel ++ rel') ≠ none → rel'.length < fuel) →
      ∃ r, walk (memOS decode offset) (copyDirFn (memOS decode offset) src dst) fuel (src ++ rel)
        info w = some r := by
  intro fuel
  induction fuel with
  | zero =>
    intro rel info w hinv hstat hdepth
    have hex : fs0.lookup (src ++ rel ++ []) ≠ none := by
      rw [List.append_nil, ← hinv _ ( List.prefix_append _ _)]
      unfold FS.stat at hstat
      cases hl : w.fs.lookup (src ++ rel) with
      | none => simp [hl] at hstat
      | some n => simp
    exact absurd (hdepth [] hex) (by simp)
  | succ fuel ih =>
    intro rel info w hinv hstat hdepth
    rw [walk]
    by_cases hdir : info.isDir = true
    · simp only [hdir, Bool.not_true, Bool.false_eq_true, if_false]
      have hrd : (memOS decode offset).readDir (src ++ rel) w = w.fs.readDir (src ++ rel) := rfl
      rw [hrd]
      cases hlist : w.fs.readDir (src ++ rel) with
      | error err => exact ⟨_, rfl⟩
      | ok files =>
        simp only
        rcases hfn : copyDirFn (memOS decode offset) src dst (src ++ rel) info none w with ⟨e, wa⟩
        cases e with
        | some err => exact ⟨_, rfl⟩
        | none =>
          simp only
          have hnode : fs0.lookup (src ++ rel) = some (.dir info.mode) := by
            rw [← hinv _ ( List.prefix_append _ _)]; exact (stat_ok hstat).2 hdir
          obtain ⟨hext1, -⟩ := copyDirFn_dir decode offset fs0 src dst rel h1 h2 hwf info hdir
            w wa ⟨_, hnode⟩ hfn
          refine walkNames_returns decode offset fs0 src dst rel _ ?_ _ wa
            (fun q hq => by rw [hext1.source q hq, hinv q hq])
          intro c info' w' hi hs
          have hd : ∀ rel', fs0.lookup (src ++ (rel ++ [c]) ++ rel') ≠ none → rel'.length < fuel := by
            intro rel' hex
            have e : src ++ (rel ++ [c]) ++ rel' = src ++ rel ++ (c :: rel') := by simp
            rw [e] at hex
            have := hdepth (c :: rel') hex
            simpa using this
          obtain ⟨r, hr⟩ := ih (rel ++ [c]) info' w' hi hs hd
          refine ⟨r, hr, ?_⟩
          intro w2 hw2
          subst hw2
          exact (walk_copy decode offset fs0 src dst h1 h2 hwf fuel (rel ++ [c]) info' w' w2 hi hs hr).1
    · have hdir2 : info.isDir = false := by simpa using hdir
      simp only [hdir2, Bool.not_false, if_true]
      exact ⟨_, rfl⟩

/-- C2, as stated, fails: `copyDir` of the tree `data` onto itself succeeds,
and the file `a.bin` is left empty, `os.Create` having truncated it before it
was read. -/
theorem copyDir_onto_itself_empties :
    ¬ CopiesTree (memOS sampleDecode utc) 5 ["data"] ["data"] treeWorld := by
  intro h
  have hfacts : (copyDir (memOS sampleDecode utc) 5 ["data"] ["data"] treeWorld).map
      (fun r => (r.1, r.2.fs.lookup (["data"] ++ ["a.bin"]))) = some (none, some (.file "")) := by
    decide
  rcases hr : copyDir (memOS sampleDecode utc) 5 ["data"] ["data"] treeWorld with _ | ⟨e, w2⟩
  · rw [hr] at hfacts; simp at hfacts
  · rw [hr] at hfacts
    simp only [Option.map_some', Option.some.injEq, Prod.mk.injEq] at hfacts
    obtain ⟨he, hl⟩ := hfacts
    subst he
    obtain ⟨n', hn', hsame⟩ := (h w2 hr).1 ["a.bin"] (.file "bytes of a") (by decide)
    rw [hl] at hn'
    injection hn' with hn'
    subst hn'
    revert hsame
    simp [Node.same]

theorem wellFormed_of_entries (fs : FS)
    (h : ∀ e ∈ fs, e.1 = [] ∨ fs.isDir e.1.dropLast = true) : WellFormed fs := by
  intro q name hex
  cases hl : fs.lookup (q ++ [name]) with
  | none => exact absurd hl hex
  | some n =>
    rcases h _ (FS.lookup_eq_some_mem hl) with h0 | h0
    · simp at h0
    · simp only [List.dropLast_concat] at h0
      exact (isDir_iff_lookup fs q).mp h0

theorem depth_of_entries (fs : FS) (src : Path) (fuel : Nat)
    (h : ∀ e ∈ fs, e.1.length < src.length + fuel) :
    ∀ rel, fs.lookup (src ++ rel) ≠ none → rel.length < fuel := by
  intro rel hex
  cases hl : fs.lookup (src ++ rel) with
  | none => exact absurd hl hex
  | some n =>
    have := h _ (FS.lookup_eq_some_mem hl)
    simp only [List.length_append] at this
    omega

/-- A successful `copyDir src dst` between two roots neither of which lies in
the other. -/
theorem copyDir_of_disjoint (decode : String → Except String (List Row)) (offset : Int → Int)
    (fuel : Nat) (src dst : Path) (w w2 : World) (hwf : WellFormed w.fs)
    (h1 : ¬ src <+: dst) (h2 : ¬ dst <+: src)
    (hrun : copyDir (memOS decode offset) fuel src dst w = some (none, w2)) :
    Extends w.fs src dst w.fs w2.fs ∧ ∀ rel, Copied w.fs src dst w2.fs rel := by
  simp only [copyDir, filepathWalk] at hrun
  have hl : (memOS decode offset).lstat src w = w.fs.stat src := rfl
  rw [hl] at hrun
  cases hs : w.fs.stat src with
  | error err => simp [hs, copyDirFn] at hrun
  | ok info =>
    simp only [hs] at hrun
    have hs' : w.fs.stat (src ++ []) = .ok info := by simpa using hs
    have hrun' : walk (memOS decode offset) (copyDirFn (memOS decode offset) src dst) fuel
        (src ++ []) info w = some (none, w2) := by simpa using hrun
    obtain ⟨hext, hall⟩ := walk_copy decode offset w.fs src dst h1 h2 hwf fuel [] info w w2
      (fun _ _ => rfl) hs' hrun'
    exact ⟨hext, fun rel => hall rel ( List.nil_prefix)⟩

/-- C2, amended: for every source tree at `src` and every destination root
`dst` such that neither root lies inside the other, `copyDir src dst` returns
once the bound on the walk exceeds the depth of the tree, and when it returns
without error the source tree is as it was and every entry of it is under `dst`
at the same relative path, a directory as a directory and a file with
byte-identical contents; when nothing existed under `dst` before, `dst` holds
no other entry. -/
theorem copyDir_copies (decode : String → Except String (List Row)) (offset : Int → Int)
    (fuel : Nat) (src dst : Path) (w : World) (hwf : WellFormed w.fs)
    (h1 : ¬ src <+: dst) (h2 : ¬ dst <+: src)
    (hdepth : ∀ rel, w.fs.lookup (src ++ rel) ≠ none → rel.length < fuel) :
    (∃ r, copyDir (memOS decode offset) fuel src dst w = some r) ∧
    ∀ w2, copyDir (memOS decode offset) fuel src dst w = some (none, w2) →
      (∀ rel, w2.fs.lookup (src ++ rel) = w.fs.lookup (src ++ rel)) ∧
      (∀ rel n, w.fs.lookup (src ++ rel) = some n →
        ∃ n', w2.fs.lookup (dst ++ rel) = some n' ∧ Node.same n' n) ∧
      ((∀ rel, w.fs.lookup (dst ++ rel) = none) → CopiesTree (memOS decode offset) fuel src dst w) := by
  constructor
  · simp only [copyDir, filepathWalk]
    have hl : (memOS decode offset).lstat src w = w.fs.stat src := rfl
    rw [hl]
    cases hs : w.fs.stat src with
    | error err => exact ⟨_, rfl⟩
    | ok info =>
      simp only
      have hs' : w.fs.stat (src ++ []) = .ok info := by simpa using hs
      obtain ⟨r, hr⟩ := walk_returns decode offset w.fs src dst h1 h2 hwf fuel [] info w
        (fun _ _ => rfl) hs' (fun rel' hex => hdepth rel' (by simpa using hex))
      exact ⟨r, by simpa using hr⟩
  · intro w2 hrun
    obtain ⟨hext, hall⟩ := copyDir_of_disjoint decode offset fuel src dst w w2 hwf h1 h2 hrun
    refine ⟨fun rel => hext.source _ ( List.prefix_append _ _), fun rel n hn => hall rel n hn, ?_⟩
    intro hfresh w3 hrun3
    have hw : w3 = w2 := by
      rw [hrun] at hrun3
      simp only [Option.some.injEq, Prod.mk.injEq, true_and] at hrun3
      exact hrun3.symm
    subst hw
    refine ⟨fun rel n hn => hall rel n hn, ?_⟩
    intro rel n' hn'
    rcases hext.target rel n' hn' with h | h
    · rw [hfresh rel] at h; simp at h
    · exact h

/-- C2, amended, on the tree `data` (a file, a subdirectory with a file) copied
to the new root `backup`: the copy returns without error and `backup` holds the
two files with their bytes. -/
theorem copyDir_copies_witness :
    (∃ r, copyDir (memOS sampleDecode utc) 5 ["data"] ["backup"] treeWorld = some r) ∧
    (copyDir (memOS sampleDecode utc) 5 ["data"] ["backup"] treeWorld).map
        (fun r => (r.1, r.2.fs.lookup ["backup", "a.bin"], r.2.fs.lookup ["backup", "sub", "b.bin"])) =
      some (none, some (.file "bytes of a"), some (.file "bytes of b")) :=
  ⟨(copyDir_copies sampleDecode utc 5 ["data"] ["backup"] treeWorld
      (wellFormed_of_entries _ (by decide)) (by decide) (by decide)
      (depth_of_entries _ _ _ (by decide))).1, by decide⟩

end TotalRecall
